import Mathlib

/-!
NPY reader / writer (`shoz::Npy`).

A shallow embedding of `src/src/npy.cc` and `src/cxx_companion/npy.h`.

Conventions of the embedding

* A byte (`char`) is a `Char`; a stream, a `std::string` and a buffer are `List Char`.
  An input stream is the list of its unread bytes: every read in `Npy::Load` that hits the
  end of the stream takes what is left and later reads take nothing.
* `int` is `Int` wrapped to 32 bits two's complement (`wrapInt32`), `size_t` is `Nat`
  modulo `2 ^ 64`, `unsigned short` is `Nat` below `2 ^ 16`; the host is little-endian.
* Storage the code reads without having written it (`char magic[6]`, `sz_header`, the
  array returned by `new char[size]`) starts with the contents given by `Uninit`.
* Undefined behaviour (dereferencing `begin()` of an empty vector, reading past the end of
  the buffer, `%` by zero) is `none`.
-/

namespace shoz

/-! ## Machine integers -/

/-- Conversion to `int`: reduction modulo `2 ^ 32` into `[-2 ^ 31, 2 ^ 31)`. -/
def wrapInt32 (x : Int) : Int := (x + 2147483648) % 4294967296 - 2147483648

/-- Conversion of an `int` to `size_t`: reduction modulo `2 ^ 64`. -/
def toSizeT (x : Int) : Nat := (x % 18446744073709551616).toNat

/-! ## `std::to_string(int)` and `std::stoi` -/

/-- Decimal digits of `n`, most significant first, pushed in front of `acc`;
at most `fuel` digits are produced. -/
def natDigits : Nat → Nat → List Char → List Char
  | 0, _, acc => acc
  | fuel + 1, n, acc =>
    if n / 10 = 0 then Char.ofNat (48 + n % 10) :: acc
    else natDigits fuel (n / 10) (Char.ofNat (48 + n % 10) :: acc)

/-- Decimal text of a natural number. -/
def natStr (n : Nat) : List Char := natDigits (n + 1) n []

/-- The function `std::to_string(int)`. -/
def to_string (i : Int) : List Char :=
  if i < 0 then '-' :: natStr i.natAbs else natStr i.natAbs

/-- Value of a run of decimal digits. -/
def digitsVal (s : List Char) : Nat :=
  s.foldl (fun acc c => acc * 10 + (c.toNat - 48)) 0

/-- The function `std::stoi` on a run of decimal digits (the only arguments the code passes).
`none` stands for the exception it throws: `std::invalid_argument` on an empty string,
`std::out_of_range` when the value exceeds `INT_MAX`. -/
def stoi (s : List Char) : Option Int :=
  if s = [] then none
  else if digitsVal s ≤ 2147483647 then some (digitsVal s) else none

/-! ## `std::regex` (ECMAScript grammar), the fragment the header patterns use -/

/-- Abstract syntax of the patterns. `star` is the greedy `*` applied to a single-character
atom, `opt` the greedy `?`, `group i` the `i`-th capturing parenthesis. -/
inductive Regex where
  | lit : List Char → Regex
  | cls : (Char → Bool) → Regex
  | opt : Regex → Regex
  | star : (Char → Bool) → Regex
  | seq : Regex → Regex → Regex
  | alt : Regex → Regex → Regex
  | group : Nat → Regex → Regex

/-- Captured sub-matches, most recent first. -/
abbrev Caps := List (Nat × List Char)

/-- A successful match: the captures and the input left after the matched text. -/
structure Match where
  caps : Caps
  rest : List Char
  deriving DecidableEq

/-- Sub-match `m[i]` as a string (empty when the group did not take part). -/
def Match.sub (m : Match) (i : Nat) : List Char := (m.caps.lookup i).getD []

/-- Strips the literal `l` from the front of the input. -/
def litStrip : List Char → List Char → Option (List Char)
  | [], s => some s
  | _ :: _, [] => none
  | c :: cs, x :: xs => if c = x then litStrip cs xs else none

/-- Greedy `*` over a character class with continuation `k`: the longest run first, then
shorter ones while the continuation fails. -/
def starRun {α : Type} (p : Char → Bool) (k : List Char → Option α) : List Char → Option α
  | [] => k []
  | c :: cs =>
    if p c then
      match starRun p k cs with
      | some r => some r
      | none => k (c :: cs)
    else k (c :: cs)

/-- Backtracking matcher: `r.run k s c` matches `r` at the front of `s` with captures `c` and
hands the remaining input to `k`; alternatives are tried in priority order. -/
def Regex.run : Regex → (List Char → Caps → Option Match) → List Char → Caps → Option Match
  | .lit l, k, s, c =>
    match litStrip l s with
    | some s1 => k s1 c
    | none => none
  | .cls p, k, s, c =>
    match s with
    | x :: xs => if p x then k xs c else none
    | [] => none
  | .opt r, k, s, c =>
    match r.run k s c with
    | some m => some m
    | none => k s c
  | .star p, k, s, c => starRun p (fun s1 => k s1 c) s
  | .seq a b, k, s, c => a.run (fun s1 c1 => b.run k s1 c1) s c
  | .alt a b, k, s, c =>
    match a.run k s c with
    | some m => some m
    | none => b.run k s c
  | .group i r, k, s, c =>
    r.run (fun s1 c1 => k s1 ((i, s.take (s.length - s1.length)) :: c1)) s c

/-- Match anchored at the front of the input. -/
def Regex.matchAt (re : Regex) (s : List Char) : Option Match :=
  re.run (fun s1 c => some ⟨c, s1⟩) s []

/-- The function `std::regex_search`: the match at the leftmost position that has one. -/
def regex_search (re : Regex) : List Char → Option Match
  | [] => re.matchAt []
  | x :: xs =>
    match re.matchAt (x :: xs) with
    | some m => some m
    | none => regex_search re xs

/-- Start of the leftmost match: the input from the first position where `re` matches. -/
def searchFrom (re : Regex) : List Char → Option (List Char × Match)
  | [] => (re.matchAt []).map (fun m => ([], m))
  | x :: xs =>
    match re.matchAt (x :: xs) with
    | some m => some (x :: xs, m)
    | none => searchFrom re xs

/-- The loop over `std::sregex_iterator`: the texts of the successive non-overlapping
leftmost matches. `fuel` bounds the number of matches (each one is non-empty here). -/
def regex_iter (re : Regex) : Nat → List Char → List (List Char)
  | 0, _ => []
  | fuel + 1, s =>
    match searchFrom re s with
    | none => []
    | some (from_, m) =>
      from_.take (from_.length - m.rest.length) :: regex_iter re fuel m.rest

/-- Class `\d`. -/
def isdigit (c : Char) : Bool := decide (48 ≤ c.toNat) && decide (c.toNat ≤ 57)

/-- Class `\s` (space, `\t`, `\n`, `\v`, `\f`, `\r`). -/
def isspace (c : Char) : Bool := c.toNat == 32 || (decide (9 ≤ c.toNat) && decide (c.toNat ≤ 13))

/-- Pattern `'descr': '([<=>]?)([ifc])(\d?)'`. -/
def reDescr : Regex :=
  .seq (.lit "'descr': '".toList)
    (.seq (.group 1 (.opt (.cls (fun c => c == '<' || c == '=' || c == '>'))))
      (.seq (.group 2 (.cls (fun c => c == 'i' || c == 'f' || c == 'c')))
        (.seq (.group 3 (.opt (.cls isdigit))) (.lit "'".toList))))

/-- Pattern `'fortran_order': (True|False)`. -/
def reFortranOrder : Regex :=
  .seq (.lit "'fortran_order': ".toList)
    (.group 1 (.alt (.lit "True".toList) (.lit "False".toList)))

/-- Pattern `'shape': \(\s*(\d+[^)]*)\)`. -/
def reShape : Regex :=
  .seq (.lit "'shape': (".toList)
    (.seq (.star isspace)
      (.seq (.group 1 (.seq (.cls isdigit) (.seq (.star isdigit) (.star (fun c => c != ')')))))
        (.lit ")".toList)))

/-- Pattern `\d+`. -/
def reDigits : Regex := .seq (.cls isdigit) (.star isdigit)

/-! ## The class `Npy` -/

/-- Values of `mDtype`. -/
inductive Dtype where
  | NONE | INTEGER | FLOAT | COMPLEX
  deriving DecidableEq

/-- Values of `mEndian`. -/
inductive Endian where
  | LITTLE_ENDIAN | BIG_ENDIAN
  deriving DecidableEq

/-- Attributes of `class Npy`. `mData` is the content of the owned buffer (`nullptr` is the
empty list). -/
structure Npy where
  mDtype : Dtype
  mDwidth : Int
  mEndian : Endian
  mFortranOrder : Bool
  mShape : List Int
  mFlatLength : Nat
  mData : List Char
  deriving DecidableEq

/-- The default constructor `Npy()`. -/
def Npy.new : Npy :=
  { mDtype := .NONE, mDwidth := 1, mEndian := .LITTLE_ENDIAN, mFortranOrder := false,
    mShape := [], mFlatLength := 0, mData := [] }

/-- The function `Npy::flat_size`: `std::accumulate` with an `int` accumulator starting at 1,
the result converted to `size_t`. -/
def flat_size (shape : List Int) : Nat :=
  toSizeT (shape.foldl (fun acc i => wrapInt32 (acc * i)) 1)

/-- The product `mDwidth * mFlatLength` in `size_t`. -/
def Npy.GetFlatSize (self : Npy) : Nat :=
  (toSizeT self.mDwidth * self.mFlatLength) % 18446744073709551616

/-- The local `int size = mDwidth * mFlatLength` of `Load` and `Save`. -/
def Npy.payloadSize (self : Npy) : Int := wrapInt32 self.GetFlatSize

/-! ### Writing -/

/-- The function `Npy::strDescr`. -/
def Npy.strDescr (self : Npy) : List Char :=
  "'".toList
    ++ (if self.mEndian = .BIG_ENDIAN then ">".toList else "<".toList)
    ++ (if self.mDtype = .COMPLEX then "c".toList
        else if self.mDtype = .FLOAT then "f".toList else "i".toList)
    ++ to_string self.mDwidth
    ++ "'".toList

/-- The function `Npy::strFortranOrder`. -/
def Npy.strFortranOrder (self : Npy) : List Char :=
  if self.mFortranOrder then "True".toList else "False".toList

/-- The function `Npy::strShape`; `none` when the shape is empty (`*item++` on `begin()` of an
empty vector). -/
def Npy.strShape (self : Npy) : Option (List Char) :=
  match self.mShape with
  | [] => none
  | x :: items =>
    let shape := "(".toList ++ to_string x
    let shape :=
      if self.mShape.length = 1 then shape ++ ",".toList
      else items.foldl (fun acc i => acc ++ ", ".toList ++ to_string i) shape
    some (shape ++ ")".toList)

/-- The header dictionary `Save` builds before padding (lines 110-115). -/
def Npy.headerText (self : Npy) : Option (List Char) :=
  match self.strShape with
  | none => none
  | some shape =>
    some ("\x7b".toList
      ++ ("'descr': ".toList ++ self.strDescr ++ ", ".toList)
      ++ ("'fortran_order': ".toList ++ self.strFortranOrder ++ ", ".toList)
      ++ ("'shape': ".toList ++ shape ++ ", ".toList)
      ++ "\x7d".toList)

/-- Number of padding spaces (line 117). -/
def padding (headerLength : Nat) : Nat := 0x7f - (10 + headerLength) % 0x80

/-- The padded header: the dictionary, the padding spaces and a newline (lines 117-120). -/
def padHeader (header : List Char) : List Char :=
  header ++ List.replicate (padding header.length) ' ' ++ ['\n']

/-- The bytes `"\x93NUMPY"`. -/
def MAGIC : List Char := [Char.ofNat 0x93, 'N', 'U', 'M', 'P', 'Y']

/-- The payload `out.write(mData, size)` emits: nothing when `size` is not positive, `none`
when the buffer holds fewer than `size` bytes. -/
def Npy.payload (self : Npy) : Option (List Char) :=
  if self.payloadSize ≤ 0 then some []
  else if self.payloadSize.toNat ≤ self.mData.length then
    some (self.mData.take self.payloadSize.toNat)
  else none

/-- The bytes `Save` writes around the dictionary text `text` and the payload `data`: magic
and version (lines 106-107), the padded header and its length (lines 117-124), the payload
(line 127). -/
def saveBytes (text data : List Char) : List Char :=
  let header := padHeader text
  let sz_header := header.length
  MAGIC ++ [Char.ofNat 1, Char.ofNat 0]
    ++ [Char.ofNat (sz_header % 256), Char.ofNat (sz_header / 256 % 256)]
    ++ header ++ data

/-- The function `Npy::Save(std::ostream&)`: the bytes written to the stream. -/
def Npy.Save (self : Npy) : Option (List Char) :=
  match self.headerText with
  | none => none
  | some text =>
    match self.payload with
    | none => none
    | some data => some (saveBytes text data)

/-! ### Reading -/

/-- The function `Npy::readDescr`: the object after the call and the value returned. The
third sub-match is at most one digit, so the `stoi` of line 67 cannot throw. -/
def Npy.readDescr (self : Npy) (header : List Char) : Npy × Bool :=
  match regex_search reDescr header with
  | none => (self, false)
  | some m =>
    ({ self with
        mEndian := if m.sub 1 = ">".toList then .BIG_ENDIAN else .LITTLE_ENDIAN
        mDtype :=
          if m.sub 2 = "i".toList then .INTEGER
          else if m.sub 2 = "f".toList then .FLOAT
          else if m.sub 2 = "c".toList then .COMPLEX
          else .NONE
        mDwidth := if m.sub 3 = [] then 1 else (stoi (m.sub 3)).getD 0 },
      true)

/-- The function `Npy::readFortranOrder`. -/
def Npy.readFortranOrder (self : Npy) (header : List Char) : Npy × Bool :=
  match regex_search reFortranOrder header with
  | none => (self, false)
  | some m => ({ self with mFortranOrder := decide (m.sub 1 = "True".toList) }, true)

/-- The loop `mShape.push_back(stoi(num->str()))` over the digit runs: the vector after the
loop and whether the loop ran to its end (`false`: `stoi` threw and the loop was left). -/
def pushShape : List Int → List (List Char) → List Int × Bool
  | shape, [] => (shape, true)
  | shape, num :: nums =>
    match stoi num with
    | none => (shape, false)
    | some v => pushShape (shape ++ [v]) nums

/-- The function `Npy::readShape`: the object after the call and the value returned, `none`
when the call is left by the exception of `stoi`. -/
def Npy.readShape (self : Npy) (header : List Char) : Npy × Option Bool :=
  match regex_search reShape header with
  | none => (self, some false)
  | some m =>
    match pushShape self.mShape (regex_iter reDigits ((m.sub 1).length + 1) (m.sub 1)) with
    | (shape, false) => ({ self with mShape := shape }, none)
    | (shape, true) =>
      if shape ≠ [] then
        ({ self with mShape := shape, mFlatLength := flat_size shape }, some true)
      else ({ self with mShape := shape, mFlatLength := 0 }, some false)

/-- The condition of lines 38-40, `readDescr(header) && readFortranOrder(header) &&
readShape(header)` with its short-circuit evaluation: the object afterwards and the value,
`none` when `stoi` threw. -/
def Npy.parseHeader (self : Npy) (header : List Char) : Npy × Option Bool :=
  match self.readDescr header with
  | (s1, false) => (s1, some false)
  | (s1, true) =>
    match s1.readFortranOrder header with
    | (s2, false) => (s2, some false)
    | (s2, true) => s2.readShape header

/-- Contents of the storage `Load` reads from without having written it: the array
`magic`, the two bytes of `sz_header` and the array returned by `new char[size]`. -/
structure Uninit where
  magic : Nat → Char
  szC0 : Char
  szC1 : Char
  heap : Nat → Char

/-- The call `in.read(buf, n)` on storage holding `old`: the bytes the stream still has, at
most `n`, then the part of the storage the read did not reach. -/
def readInto (n : Nat) (old : Nat → Char) (inp : List Char) : List Char :=
  inp.take n ++ ((List.range n).drop inp.length).map old

/-- The value of `sz_header.S` after its bytes `C[0]` and `C[1]` were stored. -/
def le16 (c0 c1 : Char) : Nat := c0.toNat % 256 + 256 * (c1.toNat % 256)

/-- The call `std::getline(in, header)`: the text before the first newline or the end. -/
def getline (inp : List Char) : List Char := inp.takeWhile (fun c => c != '\n')

/-- How a call of `Load` is left. -/
inductive LoadError where
  | invalidMagic
  | invalidHeader
  | parseFail
  | stoiThrown
  | badAlloc
  deriving DecidableEq

/-- Result of `Load`: the exception thrown if any (`invalidMagic`, `invalidHeader` and
`parseFail` are the three `std::runtime_error`s, `stoiThrown` the exception of `std::stoi`,
`badAlloc` the one of `new char[size]` for a negative `size`), the object after the call and
the unread rest of the stream. -/
structure LoadResult where
  error : Option LoadError
  npy : Npy
  rest : List Char
  deriving DecidableEq

/-- The function `Npy::Load(std::istream&)`. -/
def Npy.Load (self : Npy) (u : Uninit) (inp : List Char) : LoadResult :=
  let magic := readInto 6 u.magic inp
  let in1 := inp.drop 6
  if magic ≠ MAGIC then ⟨some .invalidMagic, self, in1⟩
  else
    let in2 := in1.drop 2
    let c0 := in2.headD u.szC0
    let c1 := (in2.drop 1).headD u.szC1
    let in3 := in2.drop 2
    let header := getline in3
    let in4 := in3.drop (header.length + 1)
    if header.length + 1 ≠ le16 c0 c1 then ⟨some .invalidHeader, self, in4⟩
    else
      match self.parseHeader header with
      | (s, none) => ⟨some .stoiThrown, s, in4⟩
      | (s, some false) => ⟨some .parseFail, s, in4⟩
      | (s, some true) =>
        if s.payloadSize < 0 then ⟨some .badAlloc, s, in4⟩
        else
          ⟨none, { s with mData := readInto s.payloadSize.toNat u.heap in4 },
            in4.drop s.payloadSize.toNat⟩

/-! ### Reshaping -/

/-- The function `Npy::Reshape`; `none` when `mFlatLength % new_size` is evaluated with
`new_size` zero. -/
def Npy.Reshape (self : Npy) (shape : List Int) : Option Npy :=
  let new_size := flat_size shape
  if new_size = self.mFlatLength then some { self with mShape := shape }
  else if new_size < self.mFlatLength then
    if new_size = 0 then none
    else if self.mFlatLength % new_size = 0 then
      some { self with mShape := shape ++ [wrapInt32 (self.mFlatLength / new_size)] }
    else some self
  else some self

/-- An `Uninit` whose storage is all zero bytes. -/
def Uninit.zero : Uninit :=
  { magic := fun _ => Char.ofNat 0, szC0 := Char.ofNat 0, szC1 := Char.ofNat 0,
    heap := fun _ => Char.ofNat 0 }

/-! ## Auxiliary predicates used in the proofs -/

/-- The literal `l` and the text `s` differ at a position both have. -/
def mismatch : List Char → List Char → Bool
  | c :: cs, x :: xs => c != x || mismatch cs xs
  | _, _ => false

/-- At no position of `pre` can a match of a pattern starting with the literal `l` begin,
whatever text follows `pre`. -/
def clearOf (l : List Char) : List Char → Bool
  | [] => true
  | x :: xs => mismatch l (x :: xs) && clearOf l xs

/-- A text that is empty or starts with a character that is not a digit. -/
def stopsDigits : List Char → Bool
  | [] => true
  | c :: _ => !isdigit c

/-- What `strShape` writes after the first extent: a comma for a one-entry shape, else the
other extents each preceded by `, `. -/
def shapeSfx (items : List Int) : List Char :=
  if items = [] then ",".toList
  else (items.map (fun i => ", ".toList ++ to_string i)).flatten

/-- The header dictionary as one right-nested text, for an endian character `e`, a type
character `t`, a width digit `w`, the order flag `b` and the text `inner` between the
parentheses of the shape. -/
def headerOf (e t w : Char) (b : Bool) (inner : List Char) : List Char :=
  ['\x7b'] ++ ("'descr': '".toList ++ (e :: t :: w :: ("'".toList ++ (", ".toList
    ++ ("'fortran_order': ".toList ++ ((if b = true then "True".toList else "False".toList)
      ++ (", ".toList ++ ("'shape': (".toList ++ (inner
        ++ (")".toList ++ ", \x7d".toList))))))))))

/-- The part of `headerOf` before the `'fortran_order'` key. -/
def preFortran (e t w : Char) : List Char :=
  ['\x7b'] ++ ("'descr': '".toList ++ (e :: t :: w :: ("'".toList ++ ", ".toList)))

/-- The part of `headerOf` before the `'shape'` key. -/
def preShape (e t w : Char) (b : Bool) : List Char :=
  preFortran e t w ++ ("'fortran_order': ".toList
    ++ ((if b = true then "True".toList else "False".toList) ++ ", ".toList))

/-- Characters of the text between the parentheses of a shape `strShape` wrote for
non-negative extents. -/
def shapeChar (c : Char) : Bool := isdigit c || c == ',' || c == ' '

/-- Endian character `strDescr` writes. -/
def endianChar (e : Endian) : Char := if e = .BIG_ENDIAN then '>' else '<'

/-- Type character `strDescr` writes. -/
def dtypeChar (d : Dtype) : Char :=
  if d = .COMPLEX then 'c' else if d = .FLOAT then 'f' else 'i'

/-- The object `target` after the header `Save` wrote for `x` was parsed into it: the four
descriptor attributes of `x`, the extents of `x` pushed behind those `target` had, and the
element count of the resulting shape. -/
def Npy.parsedFrom (target x : Npy) : Npy :=
  { target with
    mEndian := x.mEndian, mDtype := x.mDtype, mDwidth := x.mDwidth
    mFortranOrder := x.mFortranOrder
    mShape := target.mShape ++ x.mShape
    mFlatLength := flat_size (target.mShape ++ x.mShape) }

/-- No shape tuple with a leading extent starts at the front of `t`: either `t` does not
start with `'shape': (`, or what follows it, blanks skipped, is not a digit (as in the empty
tuple `()`) . -/
def tupleStartsEmpty (t : List Char) : Bool :=
  match litStrip "'shape': (".toList t with
  | none => true
  | some r =>
    match r.dropWhile isspace with
    | [] => true
    | d :: _ => !isdigit d

/-- A sequence of `Reshape` calls on one object, in order; `none` as soon as one of them
has no result. -/
def reshapeAll : Npy → List (List Int) → Option Npy
  | x, [] => some x
  | x, shape :: shapes =>
    match x.Reshape shape with
    | none => none
    | some y => reshapeAll y shapes

/-! ## Concrete objects and streams -/

/-- A 2 x 3 array of 4-byte floats with a 24-byte buffer. -/
def float2x3 : Npy :=
  { mDtype := .FLOAT, mDwidth := 4, mEndian := .LITTLE_ENDIAN, mFortranOrder := false,
    mShape := [2, 3], mFlatLength := 6, mData := List.replicate 24 'a' }

/-- The stream `Save` writes for `float2x3` with its last four payload bytes cut off. -/
def truncatedStream : List Char :=
  saveBytes "\x7b'descr': '<f4', 'fortran_order': False, 'shape': (2, 3), \x7d".toList
    (List.replicate 20 'a')

/-- A one-element array of 16-byte complex numbers (`complex128`). -/
def complex16 : Npy :=
  { mDtype := .COMPLEX, mDwidth := 16, mEndian := .LITTLE_ENDIAN, mFortranOrder := false,
    mShape := [1], mFlatLength := 1, mData := List.replicate 16 'a' }

/-- A 2^30-element array of 2-byte integers: its payload of 2^31 bytes does not fit the
`int size` of `Save` and `Load`. -/
def hugeInt2 : Npy :=
  { mDtype := .INTEGER, mDwidth := 2, mEndian := .LITTLE_ENDIAN, mFortranOrder := false,
    mShape := [1073741824], mFlatLength := 1073741824,
    mData := List.replicate 2147483648 'a' }

/-- A one-element array whose shape has 30000 extents, all 1. -/
def manyDims : Npy :=
  { mDtype := .INTEGER, mDwidth := 1, mEndian := .LITTLE_ENDIAN, mFortranOrder := false,
    mShape := 1 :: 1 :: List.replicate 29998 1, mFlatLength := 1, mData := ['a'] }

/-- The header dictionary `Save` builds for `manyDims`. -/
def manyDimsText : List Char :=
  headerOf '<' 'i' '1' false (to_string 1 ++ shapeSfx (1 :: List.replicate 29998 1))

/-- A header whose only shape extent, 99999999999, is no `int`. -/
def overflowShapeText : List Char :=
  "\x7b'descr': '<i4', 'fortran_order': False, 'shape': (99999999999,), \x7d".toList

/-- A header with a descr field and a shape field but no fortran_order field. -/
def noOrderText : List Char := "\x7b'descr': '>f8', 'shape': (3,), \x7d".toList

/-- A header with a descr field and a fortran_order field but no shape field. -/
def noShapeText : List Char := "\x7b'descr': '>f8', 'fortran_order': True, \x7d".toList

/-- A header whose shape field is the empty tuple. -/
def emptyTupleText : List Char :=
  "\x7b'descr': '<f4', 'fortran_order': False, 'shape': (), \x7d".toList

/-- A 24-element array of 1-byte integers. -/
def int24 : Npy :=
  { mDtype := .INTEGER, mDwidth := 1, mEndian := .LITTLE_ENDIAN, mFortranOrder := false,
    mShape := [24], mFlatLength := 24, mData := List.replicate 24 'a' }

/-- The stream `Save` writes for `int24`. -/
def int24Stream : List Char :=
  saveBytes "\x7b'descr': '<i1', 'fortran_order': False, 'shape': (24,), \x7d".toList
    (List.replicate 24 'a')

/-- A well-formed stream for 2-byte integers of shape `(65536, 32768)`. The product of the
extents is 2^31, which `flat_size` computes as the `int` -2^31; `int size = 2 * count` is
then 0, so the stream has no payload byte. -/
def wrapStream : List Char :=
  saveBytes
    "\x7b'descr': '<i2', 'fortran_order': False, 'shape': (65536, 32768), \x7d".toList []

/-- The object `Load` builds from `wrapStream`: the stored count is the `int` -2^31
converted to `size_t`, 2^64 - 2^31. -/
def wrapInt2 : Npy :=
  { mDtype := .INTEGER, mDwidth := 2, mEndian := .LITTLE_ENDIAN, mFortranOrder := false,
    mShape := [65536, 32768], mFlatLength := 18446744071562067968, mData := [] }

/-- A well-formed stream for 2-byte integers of shape `(1073741824,)` with no payload byte:
`int size = 2 * 1073741824` is negative. -/
def negativeSizeStream : List Char :=
  saveBytes
    "\x7b'descr': '<i2', 'fortran_order': False, 'shape': (1073741824,), \x7d".toList []

/-- A well-formed stream for 4-byte integers of shape `(1073741825,)` with no payload byte:
`int size = 4 * 1073741825` is 4. -/
def smallSizeStream : List Char :=
  saveBytes
    "\x7b'descr': '<i4', 'fortran_order': False, 'shape': (1073741825,), \x7d".toList []

/-! ## Properties -/

/-! ### Writing: shape string, header text, padding -/

theorem foldl_append_sep {α : Type} (f : α → List Char) (sep : List Char) (items : List α)
    (init : List Char) :
    items.foldl (fun acc i => acc ++ sep ++ f i) init
      = init ++ (items.map (fun i => sep ++ f i)).flatten := by
  induction items generalizing init with
  | nil => simp
  | cons a rest ih =>
    rw [List.foldl_cons, ih]
    simp only [List.map_cons, List.flatten_cons, List.append_assoc]

theorem intercalate_cons (sep x : List Char) (xs : List (List Char)) :
    sep.intercalate (x :: xs) = x ++ (xs.map (fun y => sep ++ y)).flatten := by
  induction xs generalizing x with
  | nil => simp [List.intercalate]
  | cons y ys ih =>
    have h := ih y
    simp only [List.intercalate] at h ⊢
    simp [List.intersperse, h]

theorem strShape_single (self : Npy) (n : Int) (h : self.mShape = [n]) :
    self.strShape = some ("(".toList ++ to_string n ++ ",)".toList) := by
  simp [Npy.strShape, h]

theorem strShape_multi (self : Npy) (a b : Int) (rest : List Int)
    (h : self.mShape = a :: b :: rest) :
    self.strShape
      = some ("(".toList ++ ", ".toList.intercalate ((a :: b :: rest).map to_string)
          ++ ")".toList) := by
  have hi : ", ".toList.intercalate ((a :: b :: rest).map to_string)
      = to_string a ++ (((b :: rest).map to_string).map (fun y => ", ".toList ++ y)).flatten :=
    intercalate_cons ", ".toList (to_string a) ((b :: rest).map to_string)
  have hf := foldl_append_sep to_string ", ".toList (b :: rest) ("(".toList ++ to_string a)
  have hlen : ¬ (a :: b :: rest).length = 1 := by simp
  unfold Npy.strShape
  rw [h]
  simp only [if_neg hlen]
  rw [hf, hi]
  simp only [List.append_assoc, List.map_map, Function.comp_def, List.map_cons]

/-- C6: `strShape` on a one-entry shape `[n]` gives `(n,)`, on a shape of two or more entries
gives the decimal extents joined by `, ` between parentheses with no trailing comma; `[5]`
gives `(5,)` and `[2, 3]` gives `(2, 3)`. -/
theorem strShape_spec (self : Npy) :
    (∀ n : Int, ({ self with mShape := [n] } : Npy).strShape
        = some ("(".toList ++ to_string n ++ ",)".toList))
    ∧ (∀ (a b : Int) (rest : List Int), ({ self with mShape := a :: b :: rest } : Npy).strShape
        = some ("(".toList ++ ", ".toList.intercalate ((a :: b :: rest).map to_string)
            ++ ")".toList))
    ∧ ({ self with mShape := [5] } : Npy).strShape = some "(5,)".toList
    ∧ ({ self with mShape := [2, 3] } : Npy).strShape = some "(2, 3)".toList := by
  refine ⟨fun n => strShape_single _ n rfl, fun a b rest => strShape_multi _ a b rest rfl, ?_, ?_⟩
  · rw [strShape_single _ 5 rfl]; decide
  · rw [strShape_multi _ 2 3 [] rfl]; decide

theorem padHeader_length (text : List Char) :
    (padHeader text).length = text.length + padding text.length + 1 := by
  simp [padHeader, Nat.add_assoc]

theorem padHeader_aligned128 (text : List Char) : (10 + (padHeader text).length) % 128 = 0 := by
  rw [padHeader_length]
  unfold padding
  omega

theorem Save_eq (self : Npy) (out : List Char) (h : self.Save = some out) :
    ∃ text data, self.headerText = some text ∧ self.payload = some data ∧
      out = saveBytes text data := by
  unfold Npy.Save at h
  cases ht : self.headerText with
  | none => rw [ht] at h; cases h
  | some text =>
    rw [ht] at h
    cases hd : self.payload with
    | none => rw [hd] at h; cases h
    | some data =>
      rw [hd] at h
      exact ⟨text, data, rfl, rfl, (Option.some.inj h).symm⟩

theorem saveBytes_eq (text data : List Char) :
    saveBytes text data
      = (MAGIC ++ [Char.ofNat 1, Char.ofNat 0]
          ++ [Char.ofNat ((padHeader text).length % 256),
              Char.ofNat ((padHeader text).length / 256 % 256)])
        ++ (padHeader text ++ data) := by
  simp only [saveBytes, List.append_assoc]

theorem saveBytes_take10 (text data : List Char) :
    (saveBytes text data).take 10
      = MAGIC ++ [Char.ofNat 1, Char.ofNat 0]
          ++ [Char.ofNat ((padHeader text).length % 256),
              Char.ofNat ((padHeader text).length / 256 % 256)] := by
  rw [saveBytes_eq]
  exact List.take_left' rfl

theorem saveBytes_drop10 (text data : List Char) :
    (saveBytes text data).drop 10 = padHeader text ++ data := by
  rw [saveBytes_eq]
  exact List.drop_left' rfl

/-- C7: the header `Save` emits, between the ten preamble bytes and the payload, is the
dictionary text, then `0x7F - ((10 + length of the text) mod 0x80)` spaces, then one newline,
and ten plus its length is a multiple of 64. -/
theorem padding_invariant (self : Npy) (out : List Char) (h : self.Save = some out) :
    ∃ text data, self.headerText = some text ∧
      out.take 10 ++ (text ++ List.replicate (0x7F - (10 + text.length) % 0x80) ' ' ++ ['\n'])
          ++ data = out
      ∧ (10 + (text ++ List.replicate (0x7F - (10 + text.length) % 0x80) ' '
            ++ ['\n']).length) % 64 = 0 := by
  obtain ⟨text, data, ht, -, hout⟩ := Save_eq self out h
  refine ⟨text, data, ht, ?_, ?_⟩
  · subst hout
    have h1 := List.take_append_drop 10 (saveBytes text data)
    rw [saveBytes_drop10] at h1
    rw [List.append_assoc]
    exact h1
  · have := padHeader_aligned128 text
    unfold padHeader padding at this
    omega

set_option maxRecDepth 100000 in
theorem padding_invariant_witness :
    Npy.Save { Npy.new with mShape := [5] }
        = some (saveBytes
            "\x7b'descr': '<i1', 'fortran_order': False, 'shape': (5,), \x7d".toList [])
    ∧ ∃ text data, Npy.headerText { Npy.new with mShape := [5] } = some text ∧
      (saveBytes "\x7b'descr': '<i1', 'fortran_order': False, 'shape': (5,), \x7d".toList
          []).take 10
        ++ (text ++ List.replicate (0x7F - (10 + text.length) % 0x80) ' ' ++ ['\n']) ++ data
        = saveBytes "\x7b'descr': '<i1', 'fortran_order': False, 'shape': (5,), \x7d".toList []
      ∧ (10 + (text ++ List.replicate (0x7F - (10 + text.length) % 0x80) ' '
            ++ ['\n']).length) % 64 = 0 :=
  ⟨by decide, padding_invariant { Npy.new with mShape := [5] } _ (by decide)⟩

/-- C9: for a non-empty shape the unpadded header text is
`{'descr': D, 'fortran_order': F, 'shape': S, }` with `D` the quoted endian character, type
character and decimal width, `F` `True` or `False`, and `S` the result of `strShape`. -/
theorem headerText_spec (self : Npy) (h : self.mShape ≠ []) :
    ∃ S, self.strShape = some S ∧
      self.headerText = some ("\x7b'descr': ".toList
        ++ ("'".toList
            ++ [if self.mEndian = .BIG_ENDIAN then '>' else '<']
            ++ [match self.mDtype with
                | .COMPLEX => 'c' | .FLOAT => 'f' | .INTEGER => 'i' | .NONE => 'i']
            ++ to_string self.mDwidth ++ "'".toList)
        ++ ", 'fortran_order': ".toList
        ++ (if self.mFortranOrder = true then "True".toList else "False".toList)
        ++ ", 'shape': ".toList ++ S ++ ", \x7d".toList) := by
  obtain ⟨S, hS⟩ : ∃ S, self.strShape = some S := by
    cases hs : self.mShape with
    | nil => exact absurd hs h
    | cons a rest => simp [Npy.strShape, hs]
  refine ⟨S, hS, ?_⟩
  simp only [Npy.headerText, hS, Npy.strDescr, Npy.strFortranOrder]
  cases self.mEndian <;> cases self.mDtype <;> cases self.mFortranOrder <;>
    simp [List.append_assoc]

theorem headerText_spec_witness :
    ∃ S, Npy.strShape { Npy.new with mShape := [2, 3], mDtype := .FLOAT, mDwidth := 8 } = some S ∧
      Npy.headerText { Npy.new with mShape := [2, 3], mDtype := .FLOAT, mDwidth := 8 }
        = some ("\x7b'descr': ".toList ++ ("'".toList ++ ['<'] ++ ['f'] ++ to_string 8 ++ "'".toList)
          ++ ", 'fortran_order': ".toList ++ "False".toList
          ++ ", 'shape': ".toList ++ S ++ ", \x7d".toList) :=
  headerText_spec { Npy.new with mShape := [2, 3], mDtype := .FLOAT, mDwidth := 8 } (by decide)

/-! ### Reading: preamble -/

theorem readInto_of_le (n : Nat) (old : Nat → Char) (inp : List Char) (h : n ≤ inp.length) :
    readInto n old inp = inp.take n := by
  unfold readInto
  have : (List.range n).drop inp.length = [] := by
    apply List.drop_eq_nil_of_le
    simpa using h
  rw [this]
  simp

theorem take_eq_MAGIC_length (inp : List Char) (h : inp.take 6 = MAGIC) : 6 ≤ inp.length := by
  have h1 : (inp.take 6).length = 6 := by rw [h]; rfl
  rw [List.length_take] at h1
  omega

theorem Load_of_bad_magic (self : Npy) (u : Uninit) (inp : List Char)
    (h : readInto 6 u.magic inp ≠ MAGIC) :
    self.Load u inp = ⟨some .invalidMagic, self, inp.drop 6⟩ := by
  unfold Npy.Load
  exact if_pos h

theorem Load_of_magic (self : Npy) (u : Uninit) (inp : List Char)
    (h : readInto 6 u.magic inp = MAGIC) :
    self.Load u inp =
      if (getline (inp.drop 10)).length + 1
          ≠ le16 ((inp.drop 8).headD u.szC0) ((inp.drop 9).headD u.szC1) then
        ⟨some .invalidHeader, self, (inp.drop 10).drop ((getline (inp.drop 10)).length + 1)⟩
      else
        match self.parseHeader (getline (inp.drop 10)) with
        | (s, none) =>
          ⟨some .stoiThrown, s, (inp.drop 10).drop ((getline (inp.drop 10)).length + 1)⟩
        | (s, some false) =>
          ⟨some .parseFail, s, (inp.drop 10).drop ((getline (inp.drop 10)).length + 1)⟩
        | (s, some true) =>
          if s.payloadSize < 0 then
            ⟨some .badAlloc, s, (inp.drop 10).drop ((getline (inp.drop 10)).length + 1)⟩
          else
            ⟨none,
              { s with mData := (readInto s.payloadSize.toNat u.heap
                  ((inp.drop 10).drop ((getline (inp.drop 10)).length + 1))) },
              ((inp.drop 10).drop ((getline (inp.drop 10)).length + 1)).drop
                s.payloadSize.toNat⟩ := by
  have h8 : (inp.drop 6).drop 2 = inp.drop 8 := by rw [List.drop_drop]
  have h9 : (inp.drop 8).drop 1 = inp.drop 9 := by rw [List.drop_drop]
  have h10 : (inp.drop 8).drop 2 = inp.drop 10 := by rw [List.drop_drop]
  unfold Npy.Load
  rw [if_neg (not_not.mpr h)]
  simp only [h8, h9, h10]

/-- C3: for every stream that starts with the signature, with `S` the value of the two
length bytes at offsets 8 and 9 read as a little-endian integer and `header` the line up to
the first newline after offset 10: when `header.length + 1` differs from `S`, `Load` throws
the invalid-header error, and when `Load` gets past that check the two are equal. -/
theorem Load_header_length (self : Npy) (u : Uninit) (inp : List Char)
    (hm : inp.take 6 = MAGIC) :
    ((getline (inp.drop 10)).length + 1
        ≠ le16 ((inp.drop 8).headD u.szC0) ((inp.drop 9).headD u.szC1) →
      (self.Load u inp).error = some .invalidHeader)
    ∧ ((self.Load u inp).error ≠ some .invalidMagic →
        (self.Load u inp).error ≠ some .invalidHeader →
        (getline (inp.drop 10)).length + 1
          = le16 ((inp.drop 8).headD u.szC0) ((inp.drop 9).headD u.szC1)) := by
  have hm1 : readInto 6 u.magic inp = MAGIC := by
    rw [readInto_of_le 6 u.magic inp (take_eq_MAGIC_length inp hm)]
    exact hm
  rw [Load_of_magic self u inp hm1]
  constructor
  · intro hne
    rw [if_pos hne]
  · intro _ h2
    by_contra hne
    rw [if_pos hne] at h2
    exact h2 rfl

theorem Load_header_length_witness :
    ((MAGIC ++ [Char.ofNat 1, Char.ofNat 0, Char.ofNat 7, Char.ofNat 0]
        ++ "abc\nxyz".toList).take 6 = MAGIC)
    ∧ ((getline ((MAGIC ++ [Char.ofNat 1, Char.ofNat 0, Char.ofNat 7, Char.ofNat 0]
          ++ "abc\nxyz".toList).drop 10)).length + 1
        ≠ le16 (((MAGIC ++ [Char.ofNat 1, Char.ofNat 0, Char.ofNat 7, Char.ofNat 0]
          ++ "abc\nxyz".toList).drop 8).headD 'x')
          (((MAGIC ++ [Char.ofNat 1, Char.ofNat 0, Char.ofNat 7, Char.ofNat 0]
          ++ "abc\nxyz".toList).drop 9).headD 'x'))
    ∧ (Npy.Load Npy.new Uninit.zero
        (MAGIC ++ [Char.ofNat 1, Char.ofNat 0, Char.ofNat 7, Char.ofNat 0]
          ++ "abc\nxyz".toList)).error = some .invalidHeader :=
  ⟨by decide, by decide,
    (Load_header_length Npy.new Uninit.zero
      (MAGIC ++ [Char.ofNat 1, Char.ofNat 0, Char.ofNat 7, Char.ofNat 0] ++ "abc\nxyz".toList)
      (by decide)).1 (by decide)⟩

/-! ### Reading: the descr field -/

set_option maxRecDepth 100000 in
/-- C4: `readDescr` accepts the descr fields `<i4`, `>f8` and `i4` and decodes them to
(Integer, 4, little-endian), (Float, 8, big-endian) and (Integer, 4, little-endian), but it
rejects `=c16`: the pattern allows at most one width digit, so the call returns `false` and
leaves the object as it was. -/
theorem readDescr_coverage :
    Npy.readDescr Npy.new
        "\x7b'descr': '<i4', 'fortran_order': False, 'shape': (1,), \x7d".toList
      = ({ Npy.new with mDtype := .INTEGER, mDwidth := 4, mEndian := .LITTLE_ENDIAN }, true)
    ∧ Npy.readDescr Npy.new
        "\x7b'descr': '>f8', 'fortran_order': False, 'shape': (1,), \x7d".toList
      = ({ Npy.new with mDtype := .FLOAT, mDwidth := 8, mEndian := .BIG_ENDIAN }, true)
    ∧ Npy.readDescr Npy.new
        "\x7b'descr': 'i4', 'fortran_order': False, 'shape': (1,), \x7d".toList
      = ({ Npy.new with mDtype := .INTEGER, mDwidth := 4, mEndian := .LITTLE_ENDIAN }, true)
    ∧ Npy.readDescr Npy.new
        "\x7b'descr': '=c16', 'fortran_order': False, 'shape': (1,), \x7d".toList
      = (Npy.new, false) := by
  decide

/-! ### Reading: the payload -/

theorem readInto_of_lt (n : Nat) (old : Nat → Char) (inp : List Char) (h : inp.length < n) :
    readInto n old inp = inp ++ ((List.range n).drop inp.length).map old := by
  unfold readInto
  rw [List.take_of_length_le (Nat.le_of_lt h)]

set_option maxRecDepth 100000 in
/-- C5 (counterexample): on the stream written for a 2 x 3 array of 4-byte floats with four
of its 24 payload bytes missing, `Load` throws nothing and returns a 24-byte buffer whose last
four bytes were never read from the stream. -/
theorem Load_truncated_not_detected :
    Npy.Save float2x3 = some (truncatedStream ++ List.replicate 4 'a')
    ∧ Npy.Load Npy.new Uninit.zero truncatedStream
      = ⟨none,
          { float2x3 with mData := List.replicate 20 'a' ++ List.replicate 4 (Char.ofNat 0) },
          []⟩ := by
  decide

/-! ### Decimal text -/

theorem natDigits_acc (fuel n : Nat) (acc : List Char) :
    natDigits fuel n acc = natDigits fuel n [] ++ acc := by
  induction fuel generalizing n acc with
  | zero => simp [natDigits]
  | succ f ih =>
    unfold natDigits
    by_cases h : n / 10 = 0
    · simp [h]
    · rw [if_neg h, if_neg h, ih (n / 10) (Char.ofNat (48 + n % 10) :: acc),
        ih (n / 10) [Char.ofNat (48 + n % 10)]]
      simp

theorem natDigits_fuel (f1 f2 n : Nat) (acc : List Char) (h1 : n < f1) (h2 : n < f2) :
    natDigits f1 n acc = natDigits f2 n acc := by
  induction f1 generalizing f2 n acc with
  | zero => omega
  | succ f ih =>
    cases f2 with
    | zero => omega
    | succ g =>
      unfold natDigits
      by_cases h : n / 10 = 0
      · simp [h]
      · rw [if_neg h, if_neg h]
        apply ih <;> omega

theorem natStr_small (n : Nat) (h : n < 10) : natStr n = [Char.ofNat (48 + n)] := by
  have h0 : n / 10 = 0 := by omega
  have h1 : n % 10 = n := by omega
  simp [natStr, natDigits, h0, h1]

theorem natStr_step (n : Nat) (h : 10 ≤ n) :
    natStr n = natStr (n / 10) ++ [Char.ofNat (48 + n % 10)] := by
  have h0 : ¬ n / 10 = 0 := by omega
  unfold natStr
  rw [natDigits, if_neg h0, natDigits_acc]
  congr 1
  apply natDigits_fuel <;> omega

theorem digitChar_toNat (d : Nat) (h : d < 10) : (Char.ofNat (48 + d)).toNat = 48 + d := by
  interval_cases d <;> rfl

theorem digitChar_isdigit (d : Nat) (h : d < 10) : isdigit (Char.ofNat (48 + d)) = true := by
  simp [isdigit, digitChar_toNat d h]
  omega

theorem natStr_isdigit (n : Nat) : ∀ c ∈ natStr n, isdigit c = true := by
  induction n using Nat.strong_induction_on with
  | _ n ih =>
    by_cases h : n < 10
    · rw [natStr_small n h]
      intro c hc
      rw [List.mem_singleton] at hc
      rw [hc]
      exact digitChar_isdigit n h
    · rw [natStr_step n (by omega)]
      intro c hc
      rw [List.mem_append, List.mem_singleton] at hc
      rcases hc with hc | hc
      · exact ih (n / 10) (by omega) c hc
      · rw [hc]
        exact digitChar_isdigit (n % 10) (by omega)

theorem natStr_ne_nil (n : Nat) : natStr n ≠ [] := by
  by_cases h : n < 10
  · rw [natStr_small n h]; simp
  · rw [natStr_step n (by omega)]; simp

theorem digitsVal_append_singleton (s : List Char) (c : Char) :
    digitsVal (s ++ [c]) = digitsVal s * 10 + (c.toNat - 48) := by
  simp [digitsVal, List.foldl_append]

theorem digitsVal_natStr (n : Nat) : digitsVal (natStr n) = n := by
  induction n using Nat.strong_induction_on with
  | _ n ih =>
    by_cases h : n < 10
    · rw [natStr_small n h]
      simp [digitsVal, digitChar_toNat n h]
    · rw [natStr_step n (by omega), digitsVal_append_singleton, ih (n / 10) (by omega),
        digitChar_toNat (n % 10) (by omega)]
      omega

theorem stoi_natStr (n : Nat) (h : n ≤ 2147483647) : stoi (natStr n) = some (n : Int) := by
  unfold stoi
  rw [if_neg (natStr_ne_nil n), digitsVal_natStr, if_pos h]

theorem to_string_nonneg (i : Int) (h : 0 ≤ i) : to_string i = natStr i.natAbs := by
  unfold to_string
  rw [if_neg (not_lt.mpr h)]

/-! ### The matcher -/

theorem litStrip_append (l s : List Char) : litStrip l (l ++ s) = some s := by
  induction l with
  | nil => cases s <;> rfl
  | cons c cs ih => simp [litStrip, ih]

theorem litStrip_mismatch (l pre tail : List Char) (h : mismatch l pre = true) :
    litStrip l (pre ++ tail) = none := by
  induction l generalizing pre with
  | nil => cases pre <;> simp [mismatch] at h
  | cons c cs ih =>
    cases pre with
    | nil => simp [mismatch] at h
    | cons x xs =>
      simp only [mismatch, Bool.or_eq_true, bne_iff_ne, ne_eq] at h
      simp only [List.cons_append, litStrip]
      by_cases hcx : c = x
      · rw [if_pos hcx]
        rcases h with h | h
        · exact absurd hcx h
        · exact ih xs h
      · rw [if_neg hcx]

theorem run_seq (a b : Regex) (k : List Char → Caps → Option Match) (s : List Char) (c : Caps) :
    (Regex.seq a b).run k s c = a.run (fun s1 c1 => b.run k s1 c1) s c := rfl

theorem run_lit_append (l s : List Char) (k : List Char → Caps → Option Match) (c : Caps) :
    (Regex.lit l).run k (l ++ s) c = k s c := by
  simp only [Regex.run, litStrip_append]

theorem run_lit_mismatch (l pre tail : List Char) (k : List Char → Caps → Option Match)
    (c : Caps) (h : mismatch l pre = true) : (Regex.lit l).run k (pre ++ tail) c = none := by
  simp only [Regex.run, litStrip_mismatch l pre tail h]

theorem run_cls (p : Char → Bool) (k : List Char → Caps → Option Match) (x : Char)
    (xs : List Char) (c : Caps) (h : p x = true) : (Regex.cls p).run k (x :: xs) c = k xs c := by
  simp only [Regex.run, h, if_true]

theorem run_star (p : Char → Bool) (k : List Char → Caps → Option Match) (s : List Char)
    (c : Caps) : (Regex.star p).run k s c = starRun p (fun s1 => k s1 c) s := rfl

theorem run_group (i : Nat) (r : Regex) (k : List Char → Caps → Option Match) (s : List Char)
    (c : Caps) :
    (Regex.group i r).run k s c
      = r.run (fun s1 c1 => k s1 ((i, s.take (s.length - s1.length)) :: c1)) s c := rfl

theorem run_opt_some (r : Regex) (k : List Char → Caps → Option Match) (s : List Char)
    (c : Caps) (m : Match) (h : r.run k s c = some m) : (Regex.opt r).run k s c = some m := by
  simp only [Regex.run, h]

theorem run_alt_some (a b : Regex) (k : List Char → Caps → Option Match) (s : List Char)
    (c : Caps) (m : Match) (h : a.run k s c = some m) : (Regex.alt a b).run k s c = some m := by
  simp only [Regex.run, h]

theorem run_alt_none (a b : Regex) (k : List Char → Caps → Option Match) (s : List Char)
    (c : Caps) (h : a.run k s c = none) : (Regex.alt a b).run k s c = b.run k s c := by
  simp only [Regex.run, h]

theorem starRun_stop {α : Type} (p : Char → Bool) (k : List Char → Option α) (x : Char)
    (xs : List Char) (h : p x = false) : starRun p k (x :: xs) = k (x :: xs) := by
  simp [starRun, h]

theorem starRun_go {α : Type} (p : Char → Bool) (k : List Char → Option α) (x : Char)
    (xs : List Char) (h : p x = true) :
    starRun p k (x :: xs)
      = match starRun p k xs with
        | some r => some r
        | none => k (x :: xs) := by
  rw [starRun, if_pos h]

theorem starRun_append {α : Type} (p : Char → Bool) (k : List Char → Option α)
    (xs rest : List Char) (r : α) (hxs : ∀ c ∈ xs, p c = true)
    (h : starRun p k rest = some r) : starRun p k (xs ++ rest) = some r := by
  induction xs with
  | nil => exact h
  | cons x xs ih =>
    have hx : p x = true := hxs x (List.mem_cons_self x xs)
    have ih1 := ih (fun c hc => hxs c (List.mem_cons_of_mem x hc))
    rw [List.cons_append, starRun_go p k x (xs ++ rest) hx, ih1]

theorem search_of_matchAt (re : Regex) (s : List Char) (m : Match)
    (h : re.matchAt s = some m) : regex_search re s = some m := by
  cases s with
  | nil => simpa [regex_search] using h
  | cons x xs => simp only [regex_search, h]

theorem search_skip (l : List Char) (r : Regex) (pre tail : List Char)
    (h : clearOf l pre = true) :
    regex_search (.seq (.lit l) r) (pre ++ tail) = regex_search (.seq (.lit l) r) tail := by
  induction pre with
  | nil => rfl
  | cons x xs ih =>
    simp only [clearOf, Bool.and_eq_true] at h
    have h1 : (Regex.seq (.lit l) r).matchAt ((x :: xs) ++ tail) = none := by
      unfold Regex.matchAt
      rw [run_seq, run_lit_mismatch l (x :: xs) tail _ _ h.1]
    rw [List.cons_append] at h1 ⊢
    simp only [regex_search, h1]
    exact ih h.2

theorem take_cons_sub (x : Char) (xs : List Char) :
    (x :: xs).take ((x :: xs).length - xs.length) = [x] := by
  simp

theorem take_append_sub (a b : List Char) : (a ++ b).take ((a ++ b).length - b.length) = a := by
  simp

theorem run_group_cls (i : Nat) (p : Char → Bool) (k : List Char → Caps → Option Match)
    (x : Char) (xs : List Char) (c : Caps) (hp : p x = true) :
    (Regex.group i (.cls p)).run k (x :: xs) c = k xs ((i, [x]) :: c) := by
  rw [run_group, run_cls _ _ _ _ _ hp, take_cons_sub]

theorem run_group_opt_cls (i : Nat) (p : Char → Bool) (k : List Char → Caps → Option Match)
    (x : Char) (xs : List Char) (c : Caps) (m : Match) (hp : p x = true)
    (h : k xs ((i, [x]) :: c) = some m) :
    (Regex.group i (.opt (.cls p))).run k (x :: xs) c = some m := by
  rw [run_group]
  apply run_opt_some
  rw [run_cls _ _ _ _ _ hp, take_cons_sub]
  exact h

theorem starRun_nil {α : Type} (p : Char → Bool) (k : List Char → Option α) :
    starRun p k [] = k [] := rfl

theorem starRun_two {α : Type} (p q : Char → Bool) (k : List Char → Option α)
    (xs rest : List Char) (r : α) (hxs : ∀ c ∈ xs, q c = true)
    (hp : starRun p (fun s => starRun q k s) rest = some r)
    (hq : starRun q k rest = some r) :
    starRun p (fun s => starRun q k s) (xs ++ rest) = some r := by
  induction xs with
  | nil => exact hp
  | cons x xs ih =>
    have ih1 := ih (fun c hc => hxs c (List.mem_cons_of_mem x hc))
    rw [List.cons_append]
    cases hx : p x with
    | true => rw [starRun_go p _ x (xs ++ rest) hx, ih1]
    | false =>
      rw [starRun_stop p _ x (xs ++ rest) hx]
      exact starRun_append q k (x :: xs) rest r hxs hq

/-- The match of the descr pattern on a header that starts `{'descr': '` followed by an
endian character, a type character, one digit and a quote. -/
theorem search_reDescr (e t w : Char) (tail : List Char)
    (he : (e == '<' || e == '=' || e == '>') = true)
    (ht : (t == 'i' || t == 'f' || t == 'c') = true) (hw : isdigit w = true) :
    regex_search reDescr
        (['\x7b'] ++ ("'descr': '".toList ++ (e :: t :: w :: ("'".toList ++ tail))))
      = some ⟨[(3, [w]), (2, [t]), (1, [e])], tail⟩ := by
  unfold reDescr
  rw [search_skip _ _ ['\x7b'] _ (by decide)]
  apply search_of_matchAt
  unfold Regex.matchAt
  rw [run_seq, run_lit_append, run_seq]
  apply run_group_opt_cls _ _ _ _ _ _ _ he
  rw [run_seq, run_group_cls _ _ _ _ _ _ ht, run_seq]
  apply run_group_opt_cls _ _ _ _ _ _ _ hw
  rw [run_lit_append]

/-- The match of the fortran_order pattern at the first `'fortran_order': ` of the header. -/
theorem search_reFortranOrder (pre tail : List Char) (b : Bool)
    (hpre : clearOf "'fortran_order': ".toList pre = true) :
    regex_search reFortranOrder
        (pre ++ ("'fortran_order': ".toList
          ++ ((if b = true then "True".toList else "False".toList) ++ tail)))
      = some ⟨[(1, if b = true then "True".toList else "False".toList)], tail⟩ := by
  unfold reFortranOrder
  rw [search_skip _ _ pre _ hpre]
  apply search_of_matchAt
  unfold Regex.matchAt
  rw [run_seq, run_lit_append, run_group]
  cases b with
  | true =>
    apply run_alt_some
    simp only [if_true]
    rw [run_lit_append, take_append_sub]
  | false =>
    simp only [Bool.false_eq_true, if_false]
    rw [run_alt_none _ _ _ _ _ (run_lit_mismatch _ "False".toList tail _ _ (by decide)),
      run_lit_append, take_append_sub]

/-- The match of the shape pattern at the first `'shape': (` of the header, when the
parenthesis holds a digit followed by text without a closing parenthesis. -/
theorem search_reShape (pre tail : List Char) (d : Char) (inner : List Char)
    (hpre : clearOf "'shape': (".toList pre = true) (hd : isdigit d = true)
    (hinner : ∀ c ∈ inner, (c != ')') = true) :
    regex_search reShape
        (pre ++ ("'shape': (".toList ++ ((d :: inner) ++ (")".toList ++ tail))))
      = some ⟨[(1, d :: inner)], tail⟩ := by
  have hsp : isspace d = false := by
    simp only [isdigit, Bool.and_eq_true, decide_eq_true_eq] at hd
    simp only [isspace, Bool.or_eq_false_iff, beq_eq_false_iff_ne, ne_eq, Bool.and_eq_false_iff,
      decide_eq_false_iff_not]
    omega
  have hparD : isdigit ')' = false := by decide
  have hparN : ((fun c : Char => c != ')') ')') = false := by decide
  unfold reShape
  rw [search_skip _ _ pre _ hpre]
  apply search_of_matchAt
  unfold Regex.matchAt
  rw [run_seq, run_lit_append, run_seq, run_star, List.cons_append,
    starRun_stop _ _ _ _ hsp, run_seq, run_group, run_seq, run_cls _ _ _ _ _ hd, run_seq,
    run_star]
  simp only [run_star]
  have htake : (d :: (inner ++ (")".toList ++ tail))).take
      ((d :: (inner ++ (")".toList ++ tail))).length - (')' :: tail).length)
        = d :: inner :=
    take_append_sub (d :: inner) (")".toList ++ tail)
  apply starRun_two
  · exact hinner
  · show starRun isdigit _ (')' :: tail) = _
    rw [starRun_stop isdigit _ ')' tail hparD]
    show starRun _ _ (')' :: tail) = _
    rw [starRun_stop (fun c : Char => c != ')') _ ')' tail hparN]
    show (Regex.lit ")".toList).run _ (")".toList ++ tail) _ = _
    rw [run_lit_append, htake]
  · show starRun _ _ (')' :: tail) = _
    rw [starRun_stop (fun c : Char => c != ')') _ ')' tail hparN]
    show (Regex.lit ")".toList).run _ (")".toList ++ tail) _ = _
    rw [run_lit_append, htake]

/-! ### The digit runs of the shape field -/

theorem run_cls_false (p : Char → Bool) (k : List Char → Caps → Option Match) (x : Char)
    (xs : List Char) (c : Caps) (h : p x = false) : (Regex.cls p).run k (x :: xs) c = none := by
  simp [Regex.run, h]

theorem run_cls_nil (p : Char → Bool) (k : List Char → Caps → Option Match) (c : Caps) :
    (Regex.cls p).run k [] c = none := rfl

theorem regex_iter_succ (re : Regex) (fuel : Nat) (s : List Char) :
    regex_iter re (fuel + 1) s
      = match searchFrom re s with
        | none => []
        | some (from_, m) =>
          from_.take (from_.length - m.rest.length) :: regex_iter re fuel m.rest := rfl

theorem iter_digits_nil (fuel : Nat) : regex_iter reDigits fuel [] = [] := by
  cases fuel with
  | zero => rfl
  | succ f => rfl

theorem iter_digits_skip (fuel : Nat) (c : Char) (rest : List Char) (h : isdigit c = false) :
    regex_iter reDigits (fuel + 1) (c :: rest) = regex_iter reDigits (fuel + 1) rest := by
  have h1 : reDigits.matchAt (c :: rest) = none := by
    unfold reDigits Regex.matchAt
    rw [run_seq, run_cls_false _ _ _ _ _ h]
  rw [regex_iter_succ, regex_iter_succ]
  simp only [searchFrom, h1]

theorem matchAt_digits (n : Nat) (rest : List Char) (h : stopsDigits rest = true) :
    reDigits.matchAt (natStr n ++ rest) = some ⟨[], rest⟩ := by
  have hdig := natStr_isdigit n
  cases hs : natStr n with
  | nil => exact absurd hs (natStr_ne_nil n)
  | cons d ds =>
    rw [hs] at hdig
    have hd : isdigit d = true := hdig d (List.mem_cons_self d ds)
    unfold reDigits Regex.matchAt
    rw [List.cons_append, run_seq, run_cls _ _ _ _ _ hd, run_star]
    apply starRun_append
    · exact fun c hc => hdig c (List.mem_cons_of_mem d hc)
    · cases rest with
      | nil => rfl
      | cons c r =>
        have hc : isdigit c = false := by simpa [stopsDigits] using h
        rw [starRun_stop _ _ _ _ hc]

theorem iter_digits_run (fuel n : Nat) (rest : List Char) (h : stopsDigits rest = true) :
    regex_iter reDigits (fuel + 1) (natStr n ++ rest)
      = natStr n :: regex_iter reDigits fuel rest := by
  have hm := matchAt_digits n rest h
  rw [regex_iter_succ]
  cases hs : natStr n ++ rest with
  | nil =>
    have : natStr n = [] := (List.append_eq_nil.mp hs).1
    exact absurd this (natStr_ne_nil n)
  | cons x xs =>
    rw [hs] at hm
    simp only [searchFrom, hm]
    rw [← hs, take_append_sub]

theorem iter_digits_items (items : List Int) (fuel : Nat) (hfuel : items.length < fuel)
    (hpos : ∀ i ∈ items, 0 ≤ i) :
    regex_iter reDigits fuel (items.map (fun i => ", ".toList ++ to_string i)).flatten
      = items.map to_string := by
  induction items generalizing fuel with
  | nil => simp [iter_digits_nil]
  | cons a rest ih =>
    have ha : 0 ≤ a := hpos a (List.mem_cons_self a rest)
    have hrest : ∀ i ∈ rest, 0 ≤ i := fun i hi => hpos i (List.mem_cons_of_mem a hi)
    obtain ⟨f, rfl⟩ : ∃ f, fuel = f + 1 := ⟨fuel - 1, by simp at hfuel; omega⟩
    have hf : rest.length < f := by simp at hfuel; omega
    have hstop : stopsDigits (rest.map (fun i => ", ".toList ++ to_string i)).flatten = true := by
      cases rest with
      | nil => rfl
      | cons b r => rfl
    simp only [List.map_cons, List.flatten_cons]
    show regex_iter reDigits (f + 1) (',' :: ' ' :: (to_string a ++ _)) = _
    rw [iter_digits_skip f ',' _ (by decide), iter_digits_skip f ' ' _ (by decide),
      to_string_nonneg a ha, iter_digits_run f _ _ hstop, ih f hf hrest]

theorem stoi_to_string (i : Int) (h0 : 0 ≤ i) (h1 : i ≤ 2147483647) :
    stoi (to_string i) = some i := by
  rw [to_string_nonneg i h0, stoi_natStr i.natAbs (by omega)]
  congr 1
  omega

theorem pushShape_to_string (acc items : List Int)
    (h : ∀ i ∈ items, 0 ≤ i ∧ i ≤ 2147483647) :
    pushShape acc (items.map to_string) = (acc ++ items, true) := by
  induction items generalizing acc with
  | nil => simp [pushShape]
  | cons a rest ih =>
    have ha := h a (List.mem_cons_self a rest)
    rw [List.map_cons, pushShape, stoi_to_string a ha.1 ha.2]
    simp only
    rw [ih (acc ++ [a]) (fun i hi => h i (List.mem_cons_of_mem a hi))]
    simp

/-! ### The header `Save` writes, read back -/

theorem headerOf_descr (e t w : Char) (b : Bool) (inner pad : List Char) :
    ∃ tail, headerOf e t w b inner ++ pad
      = ['\x7b'] ++ ("'descr': '".toList ++ (e :: t :: w :: ("'".toList ++ tail))) := by
  refine ⟨", ".toList ++ ("'fortran_order': ".toList
    ++ ((if b = true then "True".toList else "False".toList) ++ (", ".toList
      ++ ("'shape': (".toList ++ (inner ++ (")".toList ++ (", \x7d".toList ++ pad))))))), ?_⟩
  simp only [headerOf, List.append_assoc, List.cons_append]

theorem headerOf_fortran (e t w : Char) (b : Bool) (inner pad : List Char) :
    ∃ tail, headerOf e t w b inner ++ pad
      = preFortran e t w ++ ("'fortran_order': ".toList
          ++ ((if b = true then "True".toList else "False".toList) ++ tail)) := by
  refine ⟨", ".toList
    ++ ("'shape': (".toList ++ (inner ++ (")".toList ++ (", \x7d".toList ++ pad)))), ?_⟩
  simp only [headerOf, preFortran, List.append_assoc, List.cons_append]

theorem headerOf_shape (e t w : Char) (b : Bool) (inner pad : List Char) :
    headerOf e t w b inner ++ pad
      = preShape e t w b ++ ("'shape': (".toList
          ++ (inner ++ (")".toList ++ (", \x7d".toList ++ pad)))) := by
  simp only [headerOf, preShape, preFortran, List.append_assoc, List.cons_append]

theorem clear_fortran :
    ∀ e ∈ ['<', '>'], ∀ t ∈ ['c', 'f', 'i'], ∀ w ∈ "0123456789".toList,
      clearOf "'fortran_order': ".toList (preFortran e t w) = true := by
  decide

theorem clear_shape :
    ∀ e ∈ ['<', '>'], ∀ t ∈ ['c', 'f', 'i'], ∀ w ∈ "0123456789".toList, ∀ b : Bool,
      clearOf "'shape': (".toList (preShape e t w b) = true := by
  decide

theorem strShape_form (self : Npy) (x : Int) (items : List Int) (h : self.mShape = x :: items) :
    self.strShape = some ("(".toList ++ ((to_string x ++ shapeSfx items) ++ ")".toList)) := by
  cases items with
  | nil =>
    rw [strShape_single self x h]
    have hs : shapeSfx [] = ",".toList := rfl
    have hc : ",)".toList = ",".toList ++ ")".toList := rfl
    rw [hs, hc]
    simp only [List.append_assoc]
  | cons b rest =>
    have hf := foldl_append_sep to_string ", ".toList (b :: rest) ("(".toList ++ to_string x)
    have hlen : ¬ (x :: b :: rest).length = 1 := by simp
    unfold Npy.strShape
    rw [h]
    simp only [if_neg hlen]
    rw [hf]
    have hs : shapeSfx (b :: rest)
        = ((b :: rest).map (fun i => ", ".toList ++ to_string i)).flatten := by
      unfold shapeSfx
      rw [if_neg (List.cons_ne_nil b rest)]
    rw [hs]
    simp only [List.append_assoc]

theorem to_string_digit (n : Nat) (h : n < 10) : to_string (n : Int) = [Char.ofNat (48 + n)] := by
  rw [to_string_nonneg _ (Int.ofNat_nonneg n), Int.natAbs_ofNat, natStr_small n h]

theorem headerText_eq_headerOf (self : Npy) (x : Int) (items : List Int) (n : Nat)
    (hs : self.mShape = x :: items) (hw : self.mDwidth = (n : Int)) (hn : n < 10) :
    self.headerText
      = some (headerOf (endianChar self.mEndian) (dtypeChar self.mDtype) (Char.ofNat (48 + n))
          self.mFortranOrder (to_string x ++ shapeSfx items)) := by
  have he : (if self.mEndian = .BIG_ENDIAN then ">".toList else "<".toList)
      = [endianChar self.mEndian] := by
    cases self.mEndian <;> rfl
  have ht : (if self.mDtype = .COMPLEX then "c".toList
      else if self.mDtype = .FLOAT then "f".toList else "i".toList)
      = [dtypeChar self.mDtype] := by
    cases self.mDtype <;> rfl
  unfold Npy.headerText
  rw [strShape_form self x items hs]
  simp only
  unfold Npy.strDescr Npy.strFortranOrder headerOf
  rw [he, ht, hw, to_string_digit n hn]
  simp only [List.append_assoc, List.cons_append, List.nil_append, List.singleton_append]
  rfl

theorem endianChar_mem (en : Endian) : endianChar en ∈ ['<', '>'] := by
  cases en <;> decide

theorem dtypeChar_mem (dt : Dtype) : dtypeChar dt ∈ ['c', 'f', 'i'] := by
  cases dt <;> decide

theorem digitChar_mem (n : Nat) (h : n < 10) : Char.ofNat (48 + n) ∈ "0123456789".toList := by
  interval_cases n <;> decide

theorem readDescr_headerOf (target : Npy) (en : Endian) (dt : Dtype) (n : Nat) (b : Bool)
    (inner pad : List Char) (hdt : dt ≠ .NONE) (hn : n < 10) :
    target.readDescr (headerOf (endianChar en) (dtypeChar dt) (Char.ofNat (48 + n)) b inner
        ++ pad)
      = ({ target with mEndian := en, mDtype := dt, mDwidth := (n : Int) }, true) := by
  obtain ⟨tail, htail⟩ :=
    headerOf_descr (endianChar en) (dtypeChar dt) (Char.ofNat (48 + n)) b inner pad
  have he : (endianChar en == '<' || endianChar en == '=' || endianChar en == '>') = true := by
    cases en <;> decide
  have ht : (dtypeChar dt == 'i' || dtypeChar dt == 'f' || dtypeChar dt == 'c') = true := by
    cases dt <;> decide
  have h1 : (if [endianChar en] = ">".toList then Endian.BIG_ENDIAN else Endian.LITTLE_ENDIAN)
      = en := by
    cases en <;> rfl
  have h2 : (if [dtypeChar dt] = "i".toList then Dtype.INTEGER
      else if [dtypeChar dt] = "f".toList then Dtype.FLOAT
      else if [dtypeChar dt] = "c".toList then Dtype.COMPLEX else Dtype.NONE) = dt := by
    cases dt
    · exact absurd rfl hdt
    all_goals rfl
  have h3 : (if [Char.ofNat (48 + n)] = [] then (1 : Int)
      else (stoi [Char.ofNat (48 + n)]).getD 0) = (n : Int) := by
    interval_cases n <;> rfl
  rw [htail]
  unfold Npy.readDescr
  rw [search_reDescr _ _ _ tail he ht (digitChar_isdigit n hn)]
  have s1 : Match.sub ⟨[(3, [Char.ofNat (48 + n)]), (2, [dtypeChar dt]), (1, [endianChar en])],
      tail⟩ 1 = [endianChar en] := rfl
  have s2 : Match.sub ⟨[(3, [Char.ofNat (48 + n)]), (2, [dtypeChar dt]), (1, [endianChar en])],
      tail⟩ 2 = [dtypeChar dt] := rfl
  have s3 : Match.sub ⟨[(3, [Char.ofNat (48 + n)]), (2, [dtypeChar dt]), (1, [endianChar en])],
      tail⟩ 3 = [Char.ofNat (48 + n)] := rfl
  simp only [s1, s2, s3, h1, h2, h3]

theorem readFortranOrder_headerOf (target : Npy) (en : Endian) (dt : Dtype) (n : Nat)
    (b : Bool) (inner pad : List Char) (hn : n < 10) :
    target.readFortranOrder
        (headerOf (endianChar en) (dtypeChar dt) (Char.ofNat (48 + n)) b inner ++ pad)
      = ({ target with mFortranOrder := b }, true) := by
  obtain ⟨tail, htail⟩ :=
    headerOf_fortran (endianChar en) (dtypeChar dt) (Char.ofNat (48 + n)) b inner pad
  have hclear := clear_fortran _ (endianChar_mem en) _ (dtypeChar_mem dt) _ (digitChar_mem n hn)
  have h1 : decide ((if b = true then "True".toList else "False".toList) = "True".toList)
      = b := by
    cases b <;> rfl
  rw [htail]
  unfold Npy.readFortranOrder
  rw [search_reFortranOrder _ tail b hclear]
  have s1 : Match.sub ⟨[(1, if b = true then "True".toList else "False".toList)], tail⟩ 1
      = (if b = true then "True".toList else "False".toList) := rfl
  simp only [s1, h1]

theorem shapeChar_props (c : Char) (h : shapeChar c = true) :
    (c != ')') = true ∧ (c != '\n') = true := by
  simp only [shapeChar, isdigit, Bool.or_eq_true, Bool.and_eq_true, decide_eq_true_eq,
    beq_iff_eq] at h
  simp only [bne_iff_ne, ne_eq]
  rcases h with (h | h) | h
  · constructor
    · intro hc
      rw [hc] at h
      revert h
      decide
    · intro hc
      rw [hc] at h
      revert h
      decide
  · rw [h]; decide
  · rw [h]; decide

theorem to_string_shapeChar (i : Int) (h : 0 ≤ i) : ∀ c ∈ to_string i, shapeChar c = true := by
  intro c hc
  rw [to_string_nonneg i h] at hc
  simp [shapeChar, natStr_isdigit _ c hc]

theorem items_shapeChar (items : List Int) (h : ∀ i ∈ items, 0 ≤ i) :
    ∀ c ∈ (items.map (fun i => ", ".toList ++ to_string i)).flatten, shapeChar c = true := by
  induction items with
  | nil => simp
  | cons a rest ih =>
    intro c hc
    rw [List.map_cons, List.flatten_cons, List.mem_append, List.mem_append] at hc
    rcases hc with (hc | hc) | hc
    · have : c = ',' ∨ c = ' ' := by simpa using hc
      rcases this with rfl | rfl <;> decide
    · exact to_string_shapeChar a (h a (List.mem_cons_self a rest)) c hc
    · exact ih (fun i hi => h i (List.mem_cons_of_mem a hi)) c hc

theorem shapeSfx_shapeChar (items : List Int) (h : ∀ i ∈ items, 0 ≤ i) :
    ∀ c ∈ shapeSfx items, shapeChar c = true := by
  unfold shapeSfx
  split
  · intro c hc
    have : c = ',' := by simpa using hc
    rw [this]; decide
  · exact items_shapeChar items h

theorem items_length_le (items : List Int) :
    items.length ≤ (items.map (fun i => ", ".toList ++ to_string i)).flatten.length := by
  induction items with
  | nil => simp
  | cons a rest ih =>
    simp only [List.map_cons, List.flatten_cons, List.length_append, List.length_cons]
    have : (", ".toList).length = 2 := rfl
    omega

theorem iter_inner (x : Int) (items : List Int) (hx : 0 ≤ x) (h : ∀ i ∈ items, 0 ≤ i) :
    regex_iter reDigits ((to_string x ++ shapeSfx items).length + 1)
        (to_string x ++ shapeSfx items)
      = (x :: items).map to_string := by
  rw [List.map_cons]
  rw [to_string_nonneg x hx]
  have hne := natStr_ne_nil x.natAbs
  have hl1 : 1 ≤ (natStr x.natAbs).length := by
    cases hh : natStr x.natAbs with
    | nil => exact absurd hh hne
    | cons _ _ => simp
  cases items with
  | nil =>
    have hs : shapeSfx [] = [','] := rfl
    rw [hs, iter_digits_run _ x.natAbs [','] (by decide)]
    obtain ⟨f, hf⟩ : ∃ f, (natStr x.natAbs ++ [',']).length = f + 1 :=
      ⟨(natStr x.natAbs).length, by simp⟩
    rw [hf, iter_digits_skip f ',' [] (by decide), iter_digits_nil]
    rfl
  | cons b rest =>
    have hs : shapeSfx (b :: rest)
        = ((b :: rest).map (fun i => ", ".toList ++ to_string i)).flatten := by
      unfold shapeSfx
      rw [if_neg (List.cons_ne_nil b rest)]
    have hstop : stopsDigits ((b :: rest).map (fun i => ", ".toList ++ to_string i)).flatten
        = true := rfl
    rw [hs, iter_digits_run _ x.natAbs _ hstop, iter_digits_items (b :: rest) _ _ h]
    have := items_length_le (b :: rest)
    rw [List.length_append]
    omega

theorem readShape_headerOf (target : Npy) (en : Endian) (dt : Dtype) (n : Nat) (b : Bool)
    (x : Int) (items : List Int) (pad : List Char) (hn : n < 10)
    (hall : ∀ i ∈ x :: items, 0 ≤ i ∧ i ≤ 2147483647) :
    target.readShape
        (headerOf (endianChar en) (dtypeChar dt) (Char.ofNat (48 + n)) b
          (to_string x ++ shapeSfx items) ++ pad)
      = ({ target with
            mShape := target.mShape ++ x :: items
            mFlatLength := flat_size (target.mShape ++ x :: items) }, some true) := by
  have hx : 0 ≤ x := (hall x (List.mem_cons_self x items)).1
  have hitems : ∀ i ∈ items, 0 ≤ i := fun i hi => (hall i (List.mem_cons_of_mem x hi)).1
  have hclear := clear_shape _ (endianChar_mem en) _ (dtypeChar_mem dt) _ (digitChar_mem n hn) b
  obtain ⟨d, ds, hds⟩ : ∃ d ds, to_string x = d :: ds := by
    rw [to_string_nonneg x hx]
    cases hh : natStr x.natAbs with
    | nil => exact absurd hh (natStr_ne_nil _)
    | cons d ds => exact ⟨d, ds, rfl⟩
  have hd : isdigit d = true := by
    have := natStr_isdigit x.natAbs d
    rw [← to_string_nonneg x hx, hds] at this
    exact this (List.mem_cons_self d ds)
  have hin : to_string x ++ shapeSfx items = d :: (ds ++ shapeSfx items) := by
    rw [hds]; rfl
  have hinner : ∀ c ∈ ds ++ shapeSfx items, (c != ')') = true := by
    intro c hc
    rw [List.mem_append] at hc
    rcases hc with hc | hc
    · exact (shapeChar_props c (to_string_shapeChar x hx c
        (by rw [hds]; exact List.mem_cons_of_mem d hc))).1
    · exact (shapeChar_props c (shapeSfx_shapeChar items hitems c hc)).1
  have hne : target.mShape ++ x :: items ≠ [] := by simp
  rw [headerOf_shape, hin]
  unfold Npy.readShape
  rw [search_reShape _ _ d (ds ++ shapeSfx items) hclear hd hinner]
  have s1 : Match.sub ⟨[(1, d :: (ds ++ shapeSfx items))], ", \x7d".toList ++ pad⟩ 1
      = d :: (ds ++ shapeSfx items) := rfl
  simp only [s1]
  rw [← hin, iter_inner x items hx hitems, pushShape_to_string target.mShape (x :: items) hall]
  simp only [hne, ne_eq, not_false_eq_true, if_true]

theorem parseHeader_headerOf (target : Npy) (en : Endian) (dt : Dtype) (n : Nat) (b : Bool)
    (x : Int) (items : List Int) (pad : List Char) (hdt : dt ≠ .NONE) (hn : n < 10)
    (hall : ∀ i ∈ x :: items, 0 ≤ i ∧ i ≤ 2147483647) :
    target.parseHeader
        (headerOf (endianChar en) (dtypeChar dt) (Char.ofNat (48 + n)) b
          (to_string x ++ shapeSfx items) ++ pad)
      = ({ target with
            mEndian := en, mDtype := dt, mDwidth := (n : Int), mFortranOrder := b
            mShape := target.mShape ++ x :: items
            mFlatLength := flat_size (target.mShape ++ x :: items) }, some true) := by
  unfold Npy.parseHeader
  rw [readDescr_headerOf target en dt n b _ pad hdt hn]
  simp only
  rw [readFortranOrder_headerOf _ en dt n b _ pad hn]
  simp only
  rw [readShape_headerOf _ en dt n b x items pad hn hall]

/-! ### Integer arithmetic of the sizes -/

theorem wrapInt32_of_range (a : Int) (h0 : -2147483648 ≤ a) (h1 : a < 2147483648) :
    wrapInt32 a = a := by
  unfold wrapInt32
  omega

theorem wrapInt32_range (a : Int) : -2147483648 ≤ wrapInt32 a ∧ wrapInt32 a < 2147483648 := by
  unfold wrapInt32
  omega

theorem wrapInt32_mul (a b : Int) : wrapInt32 (wrapInt32 a * b) = wrapInt32 (a * b) := by
  have h : wrapInt32 a = a + 4294967296 * (-((a + 2147483648) / 4294967296)) := by
    unfold wrapInt32
    have := Int.emod_add_ediv (a + 2147483648) 4294967296
    omega
  have h2 : wrapInt32 a * b + 2147483648
      = (a * b + 2147483648) + 4294967296 * (-((a + 2147483648) / 4294967296) * b) := by
    rw [h]; ring
  unfold wrapInt32 at h2 ⊢
  rw [h2, Int.add_mul_emod_self_left]

theorem foldl_wrap (shape : List Int) (a : Int) :
    wrapInt32 (shape.foldl (fun acc i => wrapInt32 (acc * i)) a) = wrapInt32 (a * shape.prod) := by
  induction shape generalizing a with
  | nil => simp
  | cons i rest ih =>
    rw [List.foldl_cons, ih, wrapInt32_mul, List.prod_cons, mul_assoc]

theorem foldl_wrap_range (shape : List Int) (a : Int) (h : wrapInt32 a = a) :
    wrapInt32 (shape.foldl (fun acc i => wrapInt32 (acc * i)) a)
      = shape.foldl (fun acc i => wrapInt32 (acc * i)) a := by
  induction shape generalizing a with
  | nil => exact h
  | cons i rest ih =>
    rw [List.foldl_cons]
    apply ih
    have := wrapInt32_range (a * i)
    exact wrapInt32_of_range _ this.1 this.2

/-- When the true product of the extents is a non-negative `int`, `flat_size` returns it. -/
theorem flat_size_eq_prod (shape : List Int) (h0 : 0 ≤ shape.prod)
    (h1 : shape.prod < 2147483648) : (flat_size shape : Int) = shape.prod := by
  have hf := foldl_wrap shape 1
  rw [foldl_wrap_range shape 1 (by decide), one_mul,
    wrapInt32_of_range _ (by omega) h1] at hf
  unfold flat_size toSizeT
  rw [hf]
  omega

theorem prod_nonneg_of_forall (shape : List Int) (h : ∀ i ∈ shape, 0 ≤ i) : 0 ≤ shape.prod := by
  induction shape with
  | nil => simp
  | cons a rest ih =>
    rw [List.prod_cons]
    exact mul_nonneg (h a (List.mem_cons_self a rest))
      (ih (fun i hi => h i (List.mem_cons_of_mem a hi)))

theorem payloadSize_eq (self : Npy) (len : Nat)
    (hbuf : (len : Int) = self.mDwidth * self.mFlatLength) (hfit : len < 2147483648) :
    self.payloadSize = (len : Int) := by
  have hg : self.GetFlatSize = len := by
    unfold Npy.GetFlatSize
    by_cases hF : self.mFlatLength = 0
    · rw [hF] at hbuf ⊢
      simp at hbuf ⊢
      omega
    · have hFpos : (0 : Int) < self.mFlatLength := by
        have := Nat.pos_of_ne_zero hF
        omega
      have hw : 0 ≤ self.mDwidth := by
        by_contra hneg
        have : self.mDwidth * self.mFlatLength < 0 :=
          mul_neg_of_neg_of_pos (by omega) hFpos
        omega
      obtain ⟨w, hwn⟩ : ∃ w : Nat, self.mDwidth = (w : Int) := ⟨self.mDwidth.toNat, by omega⟩
      have hprod : len = w * self.mFlatLength := by
        rw [hwn] at hbuf
        exact_mod_cast hbuf
      have hwle : w ≤ len := by
        rw [hprod]
        exact Nat.le_mul_of_pos_right w (Nat.pos_of_ne_zero hF)
      have hmod : toSizeT (w : Int) = w := by
        unfold toSizeT
        omega
      rw [hwn, hmod, ← hprod, Nat.mod_eq_of_lt (by omega)]
  unfold Npy.payloadSize
  rw [hg]
  exact wrapInt32_of_range _ (by omega) (by omega)

/-! ### The payload of a truncated stream -/

theorem readInto_length (n : Nat) (old : Nat → Char) (inp : List Char) :
    (readInto n old inp).length = n := by
  unfold readInto
  rw [List.length_append, List.length_take, List.length_map, List.length_drop,
    List.length_range]
  omega

/-- C5 (amended): `Load` does not detect a truncated payload. On every stream with a valid
preamble and header, let `size` be the value of `int size = mDwidth * mFlatLength` that
`Load` computes; it is element width times element count whenever that product is below
2^31. When `size` is negative, `Load` is left by the exception of `new char[size]`. When
`size` is not negative and the bytes remaining after the header are fewer than `size`,
`Load` returns normally: the buffer has `size` bytes, the remaining bytes of the stream
followed by the bytes the allocation happened to contain, and the stream is exhausted. -/
theorem Load_truncated_payload (self s : Npy) (u : Uninit) (inp : List Char)
    (hm : inp.take 6 = MAGIC)
    (hh : (getline (inp.drop 10)).length + 1
      = le16 ((inp.drop 8).headD u.szC0) ((inp.drop 9).headD u.szC1))
    (hp : self.parseHeader (getline (inp.drop 10)) = (s, some true)) :
    (∀ n : Nat, (n : Int) = s.mDwidth * s.mFlatLength → n < 2147483648 →
      s.payloadSize = (n : Int))
    ∧ (s.payloadSize < 0 →
        self.Load u inp
          = ⟨some .badAlloc, s, (inp.drop 10).drop ((getline (inp.drop 10)).length + 1)⟩)
    ∧ (0 ≤ s.payloadSize →
        ((inp.drop 10).drop ((getline (inp.drop 10)).length + 1)).length
          < s.payloadSize.toNat →
        self.Load u inp
          = ⟨none,
              { s with mData := ((inp.drop 10).drop ((getline (inp.drop 10)).length + 1)
                  ++ ((List.range s.payloadSize.toNat).drop
                    ((inp.drop 10).drop ((getline (inp.drop 10)).length + 1)).length).map
                      u.heap) },
              []⟩
        ∧ (self.Load u inp).npy.mData.length = s.payloadSize.toNat) := by
  have hm1 : readInto 6 u.magic inp = MAGIC := by
    rw [readInto_of_le 6 u.magic inp (take_eq_MAGIC_length inp hm)]
    exact hm
  have hload := Load_of_magic self u inp hm1
  rw [if_neg (not_not.mpr hh), hp] at hload
  simp only at hload
  refine ⟨fun n hn hfit => payloadSize_eq s n hn hfit, ?_, ?_⟩
  · intro hneg
    rw [hload, if_pos hneg]
  · intro hs hshort
    have hres : self.Load u inp
        = ⟨none,
            { s with mData := ((inp.drop 10).drop ((getline (inp.drop 10)).length + 1)
                ++ ((List.range s.payloadSize.toNat).drop
                  ((inp.drop 10).drop ((getline (inp.drop 10)).length + 1)).length).map
                    u.heap) },
            []⟩ := by
      rw [hload, if_neg (not_lt.mpr hs), readInto_of_lt _ _ _ hshort,
        List.drop_eq_nil_of_le (Nat.le_of_lt hshort)]
    have hlen := readInto_length s.payloadSize.toNat u.heap
      ((inp.drop 10).drop ((getline (inp.drop 10)).length + 1))
    rw [readInto_of_lt _ _ _ hshort] at hlen
    refine ⟨hres, ?_⟩
    rw [hres]
    exact hlen

set_option maxRecDepth 100000 in
theorem Load_truncated_payload_witness :
    (Npy.parseHeader Npy.new (getline (truncatedStream.drop 10))
        = ({ float2x3 with mData := [] }, some true))
    ∧ Npy.payloadSize { float2x3 with mData := [] } = 24
    ∧ ((truncatedStream.drop 10).drop ((getline (truncatedStream.drop 10)).length + 1)).length
        = 20
    ∧ Npy.Load Npy.new Uninit.zero truncatedStream
      = ⟨none,
          { ({ float2x3 with mData := [] } : Npy) with
            mData := ((truncatedStream.drop 10).drop
                ((getline (truncatedStream.drop 10)).length + 1)
              ++ ((List.range (Npy.payloadSize { float2x3 with mData := [] }).toNat).drop
                ((truncatedStream.drop 10).drop
                  ((getline (truncatedStream.drop 10)).length + 1)).length).map
                  Uninit.zero.heap) },
          []⟩
    ∧ Npy.payloadSize
        { Npy.new with
          mDtype := .INTEGER, mDwidth := 2, mShape := [1073741824], mFlatLength := 1073741824 }
      = -2147483648
    ∧ Npy.Load Npy.new Uninit.zero negativeSizeStream
      = ⟨some .badAlloc,
          { Npy.new with
            mDtype := .INTEGER, mDwidth := 2, mShape := [1073741824],
            mFlatLength := 1073741824 },
          (negativeSizeStream.drop 10).drop
            ((getline (negativeSizeStream.drop 10)).length + 1)⟩
    ∧ Npy.payloadSize
        { Npy.new with
          mDtype := .INTEGER, mDwidth := 4, mShape := [1073741825], mFlatLength := 1073741825 }
      = 4
    ∧ (Npy.Load Npy.new Uninit.zero smallSizeStream).error = none
    ∧ (Npy.Load Npy.new Uninit.zero smallSizeStream).npy.mData.length = 4 :=
  ⟨by decide, by decide, by decide,
    ((Load_truncated_payload Npy.new { float2x3 with mData := [] } Uninit.zero truncatedStream
      (by decide) (by decide) (by decide)).2.2 (by decide) (by decide)).1,
    by decide,
    (Load_truncated_payload Npy.new
      { Npy.new with
        mDtype := .INTEGER, mDwidth := 2, mShape := [1073741824], mFlatLength := 1073741824 }
      Uninit.zero negativeSizeStream (by decide) (by decide) (by decide)).2.1 (by decide),
    by decide, by decide, by decide⟩

set_option maxRecDepth 100000 in
theorem char_toNat_ofNat : ∀ k < 256, (Char.ofNat k).toNat = k := by
  decide

theorem le16_ofNat_mod (L : Nat) :
    le16 (Char.ofNat (L % 256)) (Char.ofNat (L / 256 % 256)) = L % 65536 := by
  unfold le16
  rw [char_toNat_ofNat _ (Nat.mod_lt _ (by decide)),
    char_toNat_ofNat _ (Nat.mod_lt _ (by decide))]
  omega

theorem le16_ofNat (L : Nat) (h : L < 65536) :
    le16 (Char.ofNat (L % 256)) (Char.ofNat (L / 256 % 256)) = L := by
  unfold le16
  rw [char_toNat_ofNat _ (Nat.mod_lt _ (by decide)),
    char_toNat_ofNat _ (Nat.mod_lt _ (by decide))]
  omega

/-! ### `Load` on the bytes `Save` wrote -/

theorem getline_padHeader (text data : List Char) (hnl : ∀ c ∈ text, (c != '\n') = true) :
    getline (padHeader text ++ data) = text ++ List.replicate (padding text.length) ' ' := by
  have hall : ∀ c ∈ text ++ List.replicate (padding text.length) ' ',
      (fun c : Char => c != '\n') c = true := by
    intro c hc
    rw [List.mem_append] at hc
    rcases hc with hc | hc
    · exact hnl c hc
    · rw [(List.mem_replicate.mp hc).2]; decide
  unfold getline padHeader
  rw [List.append_assoc, List.takeWhile_append_of_pos hall]
  have : List.takeWhile (fun c : Char => c != '\n') (['\n'] ++ data) = [] := by
    rw [List.singleton_append, List.takeWhile_cons_of_neg (by decide)]
  rw [this, List.append_nil]

theorem saveBytes_drop8 (text data : List Char) :
    (saveBytes text data).drop 8
      = Char.ofNat ((padHeader text).length % 256)
        :: Char.ofNat ((padHeader text).length / 256 % 256) :: (padHeader text ++ data) := by
  have h : saveBytes text data
      = (MAGIC ++ [Char.ofNat 1, Char.ofNat 0])
        ++ (Char.ofNat ((padHeader text).length % 256)
          :: Char.ofNat ((padHeader text).length / 256 % 256) :: (padHeader text ++ data)) := by
    simp only [saveBytes, List.append_assoc, List.cons_append, List.nil_append]
  rw [h]
  exact List.drop_left' rfl

theorem saveBytes_take6 (text data : List Char) : (saveBytes text data).take 6 = MAGIC := by
  have h : saveBytes text data
      = MAGIC ++ ([Char.ofNat 1, Char.ofNat 0]
        ++ (Char.ofNat ((padHeader text).length % 256)
          :: Char.ofNat ((padHeader text).length / 256 % 256) :: (padHeader text ++ data))) := by
    simp only [saveBytes, List.append_assoc, List.cons_append, List.nil_append]
  rw [h]
  exact List.take_left' rfl

theorem Load_saveBytes (target : Npy) (u : Uninit) (text data : List Char)
    (hnl : ∀ c ∈ text, (c != '\n') = true) (hlen : (padHeader text).length < 65536) :
    target.Load u (saveBytes text data)
      = match target.parseHeader (text ++ List.replicate (padding text.length) ' ') with
        | (s, none) => ⟨some .stoiThrown, s, data⟩
        | (s, some false) => ⟨some .parseFail, s, data⟩
        | (s, some true) =>
          if s.payloadSize < 0 then ⟨some .badAlloc, s, data⟩
          else
            ⟨none, { s with mData := (readInto s.payloadSize.toNat u.heap data) },
              data.drop s.payloadSize.toNat⟩ := by
  have h6 := saveBytes_take6 text data
  have hm : readInto 6 u.magic (saveBytes text data) = MAGIC := by
    rw [readInto_of_le 6 u.magic _ (take_eq_MAGIC_length _ h6)]
    exact h6
  have h8 := saveBytes_drop8 text data
  have h9 : (saveBytes text data).drop 9
      = Char.ofNat ((padHeader text).length / 256 % 256) :: (padHeader text ++ data) := by
    have : (saveBytes text data).drop 9 = ((saveBytes text data).drop 8).drop 1 := by
      rw [List.drop_drop]
    rw [this, h8]
    rfl
  have hg := getline_padHeader text data hnl
  have hl : (text ++ List.replicate (padding text.length) ' ').length + 1
      = (padHeader text).length := by
    rw [padHeader_length, List.length_append, List.length_replicate]
  have hdrop : (padHeader text ++ data).drop
      ((text ++ List.replicate (padding text.length) ' ').length + 1) = data := by
    rw [hl]
    exact List.drop_left' rfl
  have hcond : ¬ ((text ++ List.replicate (padding text.length) ' ').length + 1
      ≠ le16 (Char.ofNat ((padHeader text).length % 256))
          (Char.ofNat ((padHeader text).length / 256 % 256))) := by
    rw [le16_ofNat _ hlen, hl]
    exact not_not.mpr rfl
  rw [Load_of_magic target u _ hm, saveBytes_drop10, h8, h9, hg, hdrop]
  simp only [List.headD_cons]
  rw [if_neg hcond]

theorem Load_saveBytes_long (target : Npy) (u : Uninit) (text data : List Char)
    (hnl : ∀ c ∈ text, (c != '\n') = true) (hlen : 65536 ≤ (padHeader text).length) :
    target.Load u (saveBytes text data) = ⟨some .invalidHeader, target, data⟩ := by
  have h6 := saveBytes_take6 text data
  have hm : readInto 6 u.magic (saveBytes text data) = MAGIC := by
    rw [readInto_of_le 6 u.magic _ (take_eq_MAGIC_length _ h6)]
    exact h6
  have h8 := saveBytes_drop8 text data
  have h9 : (saveBytes text data).drop 9
      = Char.ofNat ((padHeader text).length / 256 % 256) :: (padHeader text ++ data) := by
    have : (saveBytes text data).drop 9 = ((saveBytes text data).drop 8).drop 1 := by
      rw [List.drop_drop]
    rw [this, h8]
    rfl
  have hg := getline_padHeader text data hnl
  have hl : (text ++ List.replicate (padding text.length) ' ').length + 1
      = (padHeader text).length := by
    rw [padHeader_length, List.length_append, List.length_replicate]
  have hdrop : (padHeader text ++ data).drop
      ((text ++ List.replicate (padding text.length) ' ').length + 1) = data := by
    rw [hl]
    exact List.drop_left' rfl
  have hcond : (text ++ List.replicate (padding text.length) ' ').length + 1
      ≠ le16 (Char.ofNat ((padHeader text).length % 256))
          (Char.ofNat ((padHeader text).length / 256 % 256)) := by
    rw [le16_ofNat_mod, hl]
    omega
  rw [Load_of_magic target u _ hm, saveBytes_drop10, h8, h9, hg, hdrop]
  simp only [List.headD_cons]
  rw [if_pos hcond]

theorem headerOf_no_newline (en : Endian) (dt : Dtype) (n : Nat) (b : Bool) (inner : List Char)
    (hn : n < 10) (hinner : ∀ c ∈ inner, (c != '\n') = true) :
    ∀ c ∈ headerOf (endianChar en) (dtypeChar dt) (Char.ofNat (48 + n)) b inner,
      (c != '\n') = true := by
  have hlit : ∀ l : List Char, l.all (fun c => c != '\n') = true → ∀ c ∈ l, (c != '\n') = true :=
    fun l h c hc => List.all_eq_true.mp h c hc
  have he : (endianChar en != '\n') = true := by cases en <;> decide
  have ht : (dtypeChar dt != '\n') = true := by cases dt <;> decide
  have hw : (Char.ofNat (48 + n) != '\n') = true := by interval_cases n <;> decide
  have hb : ∀ c ∈ (if b = true then "True".toList else "False".toList), (c != '\n') = true := by
    cases b
    · exact hlit _ (by decide)
    · exact hlit _ (by decide)
  intro c hc
  unfold headerOf at hc
  simp only [List.mem_append, List.mem_cons] at hc
  rcases hc with hc | hc | hc | hc | hc | hc | hc | hc | hc | hc | hc | hc | hc | hc
  · rcases hc with hc | hc
    · rw [hc]; decide
    · exact absurd hc (List.not_mem_nil c)
  · exact hlit _ (by decide) c hc
  · rw [hc]; exact he
  · rw [hc]; exact ht
  · rw [hc]; exact hw
  · exact hlit "'".toList (by decide) c hc
  · exact hlit ", ".toList (by decide) c hc
  · exact hlit "'fortran_order': ".toList (by decide) c hc
  · exact hb c hc
  · exact hlit ", ".toList (by decide) c hc
  · exact hlit "'shape': (".toList (by decide) c hc
  · exact hinner c hc
  · exact hlit ")".toList (by decide) c hc
  · exact hlit ", \x7d".toList (by decide) c hc

/-- Reading back what `Save` wrote, up to the payload: for a descriptor with a dtype, a
one-digit width, a non-empty shape of non-negative `int` extents and a header shorter than
65536 bytes, `Load` gets through the preamble and the header and parses the descriptor. -/
theorem Load_saveBytes_header (x target : Npy) (u : Uninit) (data : List Char)
    (hdt : x.mDtype ≠ .NONE) (hw0 : 0 ≤ x.mDwidth) (hw9 : x.mDwidth ≤ 9)
    (hne : x.mShape ≠ []) (hext : ∀ i ∈ x.mShape, 0 ≤ i ∧ i ≤ 2147483647)
    (hhdr : ∀ text, x.headerText = some text → (padHeader text).length < 65536) :
    ∃ text, x.headerText = some text ∧
      target.Load u (saveBytes text data)
        = if (target.parsedFrom x).payloadSize < 0 then
            ⟨some .badAlloc, target.parsedFrom x, data⟩
          else
            ⟨none,
              { target.parsedFrom x with
                mData := (readInto (target.parsedFrom x).payloadSize.toNat u.heap data) },
              data.drop (target.parsedFrom x).payloadSize.toNat⟩ := by
  obtain ⟨n, hn⟩ : ∃ n : Nat, x.mDwidth = (n : Int) := ⟨x.mDwidth.toNat, by omega⟩
  have hn10 : n < 10 := by omega
  obtain ⟨a, items, hs⟩ : ∃ a items, x.mShape = a :: items := by
    cases hh : x.mShape with
    | nil => exact absurd hh hne
    | cons a items => exact ⟨a, items, rfl⟩
  rw [hs] at hext
  have ha : 0 ≤ a := (hext a (List.mem_cons_self a items)).1
  have hitems : ∀ i ∈ items, 0 ≤ i := fun i hi => (hext i (List.mem_cons_of_mem a hi)).1
  have htext := headerText_eq_headerOf x a items n hs hn hn10
  have hinner : ∀ c ∈ to_string a ++ shapeSfx items, (c != '\n') = true := by
    intro c hc
    rw [List.mem_append] at hc
    rcases hc with hc | hc
    · exact (shapeChar_props c (to_string_shapeChar a ha c hc)).2
    · exact (shapeChar_props c (shapeSfx_shapeChar items hitems c hc)).2
  refine ⟨_, htext, ?_⟩
  rw [Load_saveBytes target u _ data
      (headerOf_no_newline x.mEndian x.mDtype n x.mFortranOrder _ hn10 hinner)
      (hhdr _ htext),
    parseHeader_headerOf target x.mEndian x.mDtype n x.mFortranOrder a items _ hdt hn10 hext]
  simp only [Npy.parsedFrom, hn, hs]

theorem parsedFrom_fresh (x target : Npy) (htarget : target.mShape = [])
    (hcount : x.mFlatLength = flat_size x.mShape) :
    target.parsedFrom x = { x with mData := target.mData } := by
  unfold Npy.parsedFrom
  rw [htarget, List.nil_append, ← hcount]

theorem payload_of_exact (x : Npy) (h : x.payloadSize = (x.mData.length : Int)) :
    x.payload = some x.mData := by
  unfold Npy.payload
  rw [h]
  by_cases h0 : x.mData.length = 0
  · have hnil : x.mData = [] := List.length_eq_zero.mp h0
    rw [if_pos (by omega), hnil]
  · rw [if_neg (by omega), if_pos (by simp), Int.toNat_ofNat, List.take_length]

/-- C1 (amended): for every array `x` with dtype Integer, Float or Complex, a width from 1 to
9, either byte order, either order flag, a non-empty shape of non-negative `int` extents, a
stored element count equal to the product of the extents, a buffer of exactly width times
count bytes that is shorter than 2^31 bytes, and a padded header shorter than 65536 bytes:
`Save` writes a stream, and `Load` of that stream into an object whose shape is empty (a
fresh one) throws nothing, consumes the whole stream and leaves the object equal to `x` in
every attribute and every buffer byte. -/
theorem Load_Save_roundtrip (x target : Npy) (u : Uninit)
    (hdt : x.mDtype ≠ .NONE) (hw1 : 1 ≤ x.mDwidth) (hw9 : x.mDwidth ≤ 9)
    (hne : x.mShape ≠ []) (hext : ∀ i ∈ x.mShape, 0 ≤ i ∧ i ≤ 2147483647)
    (hcount : (x.mFlatLength : Int) = x.mShape.prod)
    (hbuf : (x.mData.length : Int) = x.mDwidth * x.mShape.prod)
    (hfit : x.mData.length < 2147483648)
    (hhdr : ∀ text, x.headerText = some text → (padHeader text).length < 65536)
    (htarget : target.mShape = []) :
    ∃ out, x.Save = some out ∧ target.Load u out = ⟨none, x, []⟩ := by
  have hp0 : 0 ≤ x.mShape.prod := prod_nonneg_of_forall _ (fun i hi => (hext i hi).1)
  have hple : x.mShape.prod ≤ x.mDwidth * x.mShape.prod := by nlinarith
  have hflat : x.mFlatLength = flat_size x.mShape := by
    have := flat_size_eq_prod x.mShape hp0 (by omega)
    omega
  have hsize : x.payloadSize = (x.mData.length : Int) :=
    payloadSize_eq x x.mData.length (by rw [hbuf, hcount]) hfit
  obtain ⟨text, htext, hload⟩ :=
    Load_saveBytes_header x target u x.mData hdt (by omega) hw9 hne hext hhdr
  have hsave : x.Save = some (saveBytes text x.mData) := by
    unfold Npy.Save
    rw [htext, payload_of_exact x hsize]
  have hps : (target.parsedFrom x).payloadSize = (x.mData.length : Int) := by
    rw [parsedFrom_fresh x target htarget hflat]
    exact hsize
  refine ⟨_, hsave, ?_⟩
  rw [hload, hps, if_neg (by omega), Int.toNat_ofNat, readInto_of_le _ _ _ (le_refl _),
    List.take_length, List.drop_length, parsedFrom_fresh x target htarget hflat]

set_option maxRecDepth 100000 in
theorem Load_Save_roundtrip_witness :
    ∃ out, float2x3.Save = some out ∧ Npy.Load Npy.new Uninit.zero out = ⟨none, float2x3, []⟩ :=
  Load_Save_roundtrip float2x3 Npy.new Uninit.zero (by decide) (by decide) (by decide)
    (by decide) (by decide) (by decide) (by decide) (by decide)
    (fun text h => by
      have h1 : float2x3.headerText
          = some "\x7b'descr': '<f4', 'fortran_order': False, 'shape': (2, 3), \x7d".toList := by
        decide
      rw [h1] at h
      cases h
      decide)
    rfl

/-! ### Framing of the stream `Save` writes -/

theorem headerText_isSome (self : Npy) (hne : self.mShape ≠ []) :
    ∃ text, self.headerText = some text := by
  obtain ⟨a, items, hs⟩ : ∃ a items, self.mShape = a :: items := by
    cases hh : self.mShape with
    | nil => exact absurd hh hne
    | cons a items => exact ⟨a, items, rfl⟩
  unfold Npy.headerText
  rw [strShape_form self a items hs]
  exact ⟨_, rfl⟩

theorem shapeSfx_cons (b : Int) (rest : List Int) :
    shapeSfx (b :: rest) = ((b :: rest).map (fun i => ", ".toList ++ to_string i)).flatten := by
  unfold shapeSfx
  rw [if_neg (List.cons_ne_nil b rest)]

/-- C8 (amended): for every descriptor with a non-empty shape whose padded header is
shorter than 65536 bytes and whose buffer holds exactly width times count bytes, fewer than
2^31: the stream `Save` writes is the six magic bytes, the version bytes 1 and 0, two bytes
that read as a little-endian integer give the length of the padded header (newline
included), that header, and the buffer verbatim, which so starts at offset 10 plus that
length. -/
theorem Save_framing (self : Npy) (hne : self.mShape ≠ [])
    (hbuf : (self.mData.length : Int) = self.mDwidth * self.mFlatLength)
    (hfit : self.mData.length < 2147483648)
    (hhdr : ∀ text, self.headerText = some text → (padHeader text).length < 65536) :
    ∃ text lo hi, self.headerText = some text
      ∧ self.Save = some (MAGIC ++ [Char.ofNat 1, Char.ofNat 0] ++ [lo, hi]
          ++ padHeader text ++ self.mData)
      ∧ le16 lo hi = (padHeader text).length
      ∧ (MAGIC ++ [Char.ofNat 1, Char.ofNat 0] ++ [lo, hi]
          ++ padHeader text ++ self.mData).drop (10 + le16 lo hi) = self.mData := by
  obtain ⟨text, htext⟩ := headerText_isSome self hne
  have hsize := payloadSize_eq self self.mData.length hbuf hfit
  have hL := hhdr _ htext
  have hlen : (MAGIC ++ [Char.ofNat 1, Char.ofNat 0]
      ++ [Char.ofNat ((padHeader text).length % 256),
          Char.ofNat ((padHeader text).length / 256 % 256)] ++ padHeader text).length
      = 10 + (padHeader text).length := by
    rw [List.length_append]
    rfl
  refine ⟨text, Char.ofNat ((padHeader text).length % 256),
    Char.ofNat ((padHeader text).length / 256 % 256), htext, ?_, le16_ofNat _ hL, ?_⟩
  · unfold Npy.Save
    rw [htext, payload_of_exact self hsize]
    rfl
  · rw [le16_ofNat _ hL]
    exact List.drop_left' hlen

set_option maxRecDepth 100000 in
theorem Save_framing_witness :
    ∃ text lo hi, float2x3.headerText = some text
      ∧ float2x3.Save = some (MAGIC ++ [Char.ofNat 1, Char.ofNat 0] ++ [lo, hi]
          ++ padHeader text ++ float2x3.mData)
      ∧ le16 lo hi = (padHeader text).length
      ∧ (MAGIC ++ [Char.ofNat 1, Char.ofNat 0] ++ [lo, hi]
          ++ padHeader text ++ float2x3.mData).drop (10 + le16 lo hi) = float2x3.mData :=
  Save_framing float2x3 (by decide) (by decide) (by decide)
    (fun text h => by
      have h1 : float2x3.headerText
          = some "\x7b'descr': '<f4', 'fortran_order': False, 'shape': (2, 3), \x7d".toList := by
        decide
      rw [h1] at h
      cases h
      decide)

theorem ones_flatten_length (n : Nat) :
    ((List.replicate n (1 : Int)).map (fun i => ", ".toList ++ to_string i)).flatten.length
      = 3 * n := by
  induction n with
  | zero => rfl
  | succ k ih =>
    rw [List.replicate_succ, List.map_cons, List.flatten_cons, List.length_append, ih]
    have : (", ".toList ++ to_string 1).length = 3 := by decide
    omega

theorem headerOf_length (e t w : Char) (inner : List Char) :
    (headerOf e t w false inner).length = 55 + inner.length := by
  simp only [headerOf, List.length_append, List.length_cons, List.length_nil, Bool.false_eq_true,
    if_false]
  have h1 : "'descr': '".toList.length = 10 := by decide
  have h2 : "'".toList.length = 1 := by decide
  have h3 : ", ".toList.length = 2 := by decide
  have h4 : "'fortran_order': ".toList.length = 17 := by decide
  have h5 : "False".toList.length = 5 := by decide
  have h6 : "'shape': (".toList.length = 10 := by decide
  have h7 : ")".toList.length = 1 := by decide
  have h8 : ", \x7d".toList.length = 3 := by decide
  omega

theorem manyDims_headerText : manyDims.headerText = some manyDimsText :=
  headerText_eq_headerOf manyDims 1 (1 :: List.replicate 29998 1) 1 rfl rfl (by decide)

theorem manyDimsText_length : (padHeader manyDimsText).length = 90102 := by
  have h1 : (to_string 1).length = 1 := by decide
  have h3 : (", ".toList ++ to_string 1).length = 3 := by decide
  have hl : manyDimsText.length = 90053 := by
    unfold manyDimsText
    rw [headerOf_length, List.length_append, shapeSfx_cons, List.map_cons, List.flatten_cons,
      List.length_append, ones_flatten_length, h1, h3]
  rw [padHeader_length, hl]
  rfl

theorem manyDims_Save : manyDims.Save = some (saveBytes manyDimsText ['a']) := by
  unfold Npy.Save
  rw [manyDims_headerText]
  rfl

set_option maxRecDepth 100000 in
/-- C8 (counterexample): for a one-element array with 30000 extents the padded header is
90102 bytes long while the two length bytes `Save` writes read as 24566; and for a
2^30-element array of 2-byte integers `Save` writes the 128 bytes of preamble and header and
none of the 2^31 payload bytes. -/
theorem Save_framing_fails :
    (manyDims.headerText = some manyDimsText
      ∧ manyDims.Save = some (saveBytes manyDimsText ['a'])
      ∧ (padHeader manyDimsText).length = 90102
      ∧ ((saveBytes manyDimsText ['a']).drop 8).take 2 = [Char.ofNat 246, Char.ofNat 95]
      ∧ le16 (Char.ofNat 246) (Char.ofNat 95) = 24566)
    ∧ (hugeInt2.mData.length = 2147483648
      ∧ ∃ out, hugeInt2.Save = some out ∧ out.length = 128) := by
  refine ⟨⟨manyDims_headerText, manyDims_Save, manyDimsText_length, ?_, by decide⟩, ?_, ?_⟩
  · rw [saveBytes_drop8, manyDimsText_length]
    rfl
  · exact List.length_replicate _ _
  · refine ⟨saveBytes
      "\x7b'descr': '<i2', 'fortran_order': False, 'shape': (1073741824,), \x7d".toList [],
      by decide, by decide⟩

theorem manyDims_Load :
    Npy.Load Npy.new Uninit.zero (saveBytes manyDimsText ['a'])
      = ⟨some .invalidHeader, Npy.new, ['a']⟩ := by
  have hitems : ∀ i ∈ (1 : Int) :: List.replicate 29998 1, 0 ≤ i := by
    intro i hi
    rcases List.mem_cons.mp hi with h | h
    · omega
    · rw [List.eq_of_mem_replicate h]; omega
  have hinner : ∀ c ∈ to_string 1 ++ shapeSfx (1 :: List.replicate 29998 1),
      (c != '\n') = true := by
    intro c hc
    rw [List.mem_append] at hc
    rcases hc with hc | hc
    · exact (shapeChar_props c (to_string_shapeChar 1 (by omega) c hc)).2
    · exact (shapeChar_props c (shapeSfx_shapeChar _ hitems c hc)).2
  have hnl : ∀ c ∈ manyDimsText, (c != '\n') = true :=
    headerOf_no_newline .LITTLE_ENDIAN .INTEGER 1 false _ (by decide) hinner
  apply Load_saveBytes_long _ _ _ _ hnl
  rw [manyDimsText_length]
  omega

set_option maxRecDepth 100000 in
/-- C1 (counterexample): valid arrays whose stream does not load back. A one-element
array of 16-byte complex numbers: `Load` throws the header-parse error. A 2^30-element array
of 2-byte integers with its 2^31-byte buffer: `Save` writes no payload byte and `Load` throws
on the allocation. And `Load` of the stream of a 2 x 3 array into an object that already
holds that array: the shape becomes `[2, 3, 2, 3]`. A one-element array with 30000 extents,
whose header is longer than the two length bytes can tell: `Load` throws the invalid-header
error. -/
theorem Load_Save_not_roundtrip :
    (complex16.mDtype = .COMPLEX ∧ 0 < complex16.mDwidth ∧ complex16.mShape = [1]
      ∧ (complex16.mData.length : Int) = complex16.mDwidth * complex16.mShape.prod
      ∧ complex16.Save
        = some (saveBytes
            "\x7b'descr': '<c16', 'fortran_order': False, 'shape': (1,), \x7d".toList
            complex16.mData)
      ∧ (Npy.Load Npy.new Uninit.zero (saveBytes
            "\x7b'descr': '<c16', 'fortran_order': False, 'shape': (1,), \x7d".toList
            complex16.mData)).error = some .parseFail)
    ∧ (hugeInt2.Save
        = some (saveBytes
            "\x7b'descr': '<i2', 'fortran_order': False, 'shape': (1073741824,), \x7d".toList [])
      ∧ (Npy.Load Npy.new Uninit.zero (saveBytes
            "\x7b'descr': '<i2', 'fortran_order': False, 'shape': (1073741824,), \x7d".toList
            [])).error = some .badAlloc)
    ∧ (float2x3.Save
        = some (saveBytes
            "\x7b'descr': '<f4', 'fortran_order': False, 'shape': (2, 3), \x7d".toList
            float2x3.mData)
      ∧ (Npy.Load float2x3 Uninit.zero (saveBytes
            "\x7b'descr': '<f4', 'fortran_order': False, 'shape': (2, 3), \x7d".toList
            float2x3.mData)).npy.mShape = [2, 3, 2, 3])
    ∧ (manyDims.Save = some (saveBytes manyDimsText ['a'])
      ∧ Npy.Load Npy.new Uninit.zero (saveBytes manyDimsText ['a'])
        = ⟨some .invalidHeader, Npy.new, ['a']⟩) := by
  refine ⟨⟨by decide, by decide, by decide, by decide, by decide, by decide⟩,
    ⟨by decide, by decide⟩, ⟨by decide, by decide⟩, manyDims_Save, manyDims_Load⟩


/-! ### Reshape -/

/-- C10: when the product of the requested shape equals the stored element count, `Reshape`
replaces the shape by the requested one verbatim and changes nothing else. The product is
the one `flat_size` computes in `int` arithmetic; it is the true product of the extents
whenever that is a count below 2^31. -/
theorem Reshape_equal_count (self : Npy) (shape : List Int)
    (h : flat_size shape = self.mFlatLength
      ∨ (shape.prod = (self.mFlatLength : Int) ∧ self.mFlatLength < 2147483648)) :
    self.Reshape shape = some { self with mShape := shape } := by
  have hf : flat_size shape = self.mFlatLength := by
    rcases h with h | ⟨h1, h2⟩
    · exact h
    · have := flat_size_eq_prod shape (by omega) (by omega)
      omega
  simp [Npy.Reshape, hf]

theorem Reshape_equal_count_witness :
    flat_size [4, 6] = 24 ∧
    Npy.Reshape { Npy.new with mShape := [24], mFlatLength := 24 } [4, 6]
      = some { Npy.new with mShape := [4, 6], mFlatLength := 24 } :=
  ⟨by decide, Reshape_equal_count { Npy.new with mShape := [24], mFlatLength := 24 } [4, 6]
    (Or.inl (by decide))⟩

/-- C11 (amended): for every array whose stored element count `old_count` is below 2^31 and
every requested shape whose product `new_count` (the product of its entries) satisfies
`0 < new_count < old_count` and `old_count mod new_count = 0`, `Reshape` sets the shape to
the requested shape followed by exactly one more extent, `old_count / new_count`, and
changes nothing else. -/
theorem Reshape_inferred_axis (self : Npy) (shape : List Int)
    (hcount : self.mFlatLength < 2147483648)
    (h0 : 0 < shape.prod) (hlt : shape.prod < (self.mFlatLength : Int))
    (hdvd : (self.mFlatLength : Int) % shape.prod = 0) :
    self.Reshape shape
      = some { self with mShape := shape ++ [(self.mFlatLength : Int) / shape.prod] } := by
  have hfp := flat_size_eq_prod shape (by omega) (by omega)
  rw [← hfp] at h0 hlt hdvd ⊢
  have h0n : 0 < flat_size shape := by exact_mod_cast h0
  have hltn : flat_size shape < self.mFlatLength := by exact_mod_cast hlt
  have hdvdn : self.mFlatLength % flat_size shape = 0 := by exact_mod_cast hdvd
  have hq : self.mFlatLength / flat_size shape < 2147483648 :=
    lt_of_le_of_lt (Nat.div_le_self _ _) hcount
  have hw : wrapInt32 ((self.mFlatLength : Int) / (flat_size shape : Int))
      = (self.mFlatLength : Int) / (flat_size shape : Int) := by
    rw [← Int.natCast_div]
    generalize self.mFlatLength / flat_size shape = q at hq
    exact wrapInt32_of_range _ (by omega) (by omega)
  unfold Npy.Reshape
  simp only
  rw [if_neg (Nat.ne_of_lt hltn), if_pos hltn, if_neg (Nat.ne_of_gt h0n), if_pos hdvdn, hw]

theorem Reshape_inferred_axis_witness :
    Npy.Reshape { Npy.new with mShape := [24], mFlatLength := 24 } [4]
      = some { Npy.new with mShape := [4, 6], mFlatLength := 24 } :=
  (Reshape_inferred_axis { Npy.new with mShape := [24], mFlatLength := 24 } [4]
    (by decide) (by decide) (by decide) (by decide)).trans (by decide)

set_option maxRecDepth 100000 in
/-- C11 (counterexample): `Load` of a well-formed stream for 2-byte integers of shape
`(65536, 32768)` succeeds and stores the count 2^64 - 2^31 (the product 2^31 computed in
`int`, converted to `size_t`). The requested shape `[1]` has product 1, which is positive,
smaller than the count and divides it, yet `Reshape` appends the extent -2147483648, which
is neither the stored count divided by 1 nor the product of the loaded extents divided
by 1. -/
theorem Reshape_inferred_axis_wraps :
    Npy.Load Npy.new Uninit.zero wrapStream = ⟨none, wrapInt2, []⟩
    ∧ ([1] : List Int).prod = 1
    ∧ (1 : Int) < (wrapInt2.mFlatLength : Int)
    ∧ (wrapInt2.mFlatLength : Int) % 1 = 0
    ∧ wrapInt2.Reshape [1] = some { wrapInt2 with mShape := [1, -2147483648] }
    ∧ (wrapInt2.mFlatLength : Int) / 1 = 18446744071562067968
    ∧ wrapInt2.mShape.prod / 1 = 2147483648 := by
  decide

/-- C12 (amended): for every array with stored element count `old_count` and every requested
shape whose product `new_count` (the product of its entries) is positive, below 2^31, and
either exceeds `old_count` or is smaller than `old_count` without dividing it, `Reshape`
leaves the object, its shape included, exactly as it was. -/
theorem Reshape_noop (self : Npy) (shape : List Int)
    (h0 : 0 < shape.prod) (hfit : shape.prod < 2147483648)
    (h : (self.mFlatLength : Int) < shape.prod
      ∨ (shape.prod < (self.mFlatLength : Int)
          ∧ (self.mFlatLength : Int) % shape.prod ≠ 0)) :
    self.Reshape shape = some self := by
  have hfp := flat_size_eq_prod shape (by omega) hfit
  rw [← hfp] at h0 h
  have h0n : 0 < flat_size shape := by exact_mod_cast h0
  unfold Npy.Reshape
  simp only
  rcases h with h | ⟨h1, h2⟩
  · have hn : self.mFlatLength < flat_size shape := by exact_mod_cast h
    rw [if_neg (Nat.ne_of_gt hn), if_neg (Nat.lt_asymm hn)]
  · have h1n : flat_size shape < self.mFlatLength := by exact_mod_cast h1
    have h2n : self.mFlatLength % flat_size shape ≠ 0 := by exact_mod_cast h2
    rw [if_neg (Nat.ne_of_lt h1n), if_pos h1n, if_neg (Nat.ne_of_gt h0n), if_neg h2n]

theorem Reshape_noop_witness :
    ([5] : List Int).prod = 5
    ∧ Npy.Reshape { Npy.new with mShape := [4, 6], mFlatLength := 24 } [5]
      = some { Npy.new with mShape := [4, 6], mFlatLength := 24 }
    ∧ ([5, 5] : List Int).prod = 25
    ∧ Npy.Reshape { Npy.new with mShape := [4, 6], mFlatLength := 24 } [5, 5]
      = some { Npy.new with mShape := [4, 6], mFlatLength := 24 } :=
  ⟨by decide,
    Reshape_noop { Npy.new with mShape := [4, 6], mFlatLength := 24 } [5] (by decide)
      (by decide) (Or.inr ⟨by decide, by decide⟩),
    by decide,
    Reshape_noop { Npy.new with mShape := [4, 6], mFlatLength := 24 } [5, 5] (by decide)
      (by decide) (Or.inl (by decide))⟩

set_option maxRecDepth 100000 in
/-- C12 (counterexample): on the 24-element array that `Load` builds from `int24Stream`, the
requested shape `[4, 1073741825]` has product 4294967300, which is positive and exceeds 24,
yet `Reshape` sets the shape to `[4, 1073741825, 6]`; and the requested shape
`[65536, 65536]` has product 4294967296, which is positive and exceeds 24, yet `Reshape`
divides by zero. -/
theorem Reshape_noop_wraps :
    Npy.Save int24 = some int24Stream
    ∧ Npy.Load Npy.new Uninit.zero int24Stream = ⟨none, int24, []⟩
    ∧ ([4, 1073741825] : List Int).prod = 4294967300
    ∧ (int24.mFlatLength : Int) < ([4, 1073741825] : List Int).prod
    ∧ int24.Reshape [4, 1073741825] = some { int24 with mShape := [4, 1073741825, 6] }
    ∧ ([65536, 65536] : List Int).prod = 4294967296
    ∧ (int24.mFlatLength : Int) < ([65536, 65536] : List Int).prod
    ∧ int24.Reshape [65536, 65536] = none := by
  decide

theorem Reshape_cases (self : Npy) (shape : List Int) (r : Npy)
    (h : self.Reshape shape = some r) :
    (flat_size shape = self.mFlatLength ∧ r = { self with mShape := shape }) ∨ r = self
      ∨ (flat_size shape ≠ 0 ∧ flat_size shape < self.mFlatLength
          ∧ self.mFlatLength % flat_size shape = 0
          ∧ r = { self with
              mShape := shape ++ [wrapInt32 (self.mFlatLength / flat_size shape)] }) := by
  unfold Npy.Reshape at h
  simp only at h
  by_cases h1 : flat_size shape = self.mFlatLength
  · rw [if_pos h1] at h
    exact Or.inl ⟨h1, (Option.some.inj h).symm⟩
  · rw [if_neg h1] at h
    by_cases h2 : flat_size shape < self.mFlatLength
    · rw [if_pos h2] at h
      by_cases h3 : flat_size shape = 0
      · rw [if_pos h3] at h
        cases h
      · rw [if_neg h3] at h
        by_cases h4 : self.mFlatLength % flat_size shape = 0
        · rw [if_pos h4] at h
          exact Or.inr (Or.inr ⟨h3, h2, h4, (Option.some.inj h).symm⟩)
        · rw [if_neg h4] at h
          exact Or.inr (Or.inl (Option.some.inj h).symm)
    · rw [if_neg h2] at h
      exact Or.inr (Or.inl (Option.some.inj h).symm)

theorem Reshape_defined (self : Npy) (shape : List Int)
    (h : flat_size shape ≠ 0 ∨ self.mFlatLength = 0) : ∃ r, self.Reshape shape = some r := by
  unfold Npy.Reshape
  simp only
  by_cases h1 : flat_size shape = self.mFlatLength
  · rw [if_pos h1]; exact ⟨_, rfl⟩
  · rw [if_neg h1]
    by_cases h2 : flat_size shape < self.mFlatLength
    · have h3 : ¬ flat_size shape = 0 := by omega
      rw [if_pos h2, if_neg h3]
      by_cases h4 : self.mFlatLength % flat_size shape = 0
      · rw [if_pos h4]; exact ⟨_, rfl⟩
      · rw [if_neg h4]; exact ⟨_, rfl⟩
    · rw [if_neg h2]; exact ⟨_, rfl⟩

/-- C17: `Reshape` changes no attribute other than the shape. For every array and every
requested shape on which the call returns (the product of the shape is not zero, or the
stored count is zero) the dtype, element width, byte order, order flag, stored element
count, buffer and `GetFlatSize` of the object are the same after the call as before. -/
theorem Reshape_frame (self : Npy) (shape : List Int)
    (h : flat_size shape ≠ 0 ∨ self.mFlatLength = 0) :
    ∃ r, self.Reshape shape = some r
      ∧ r.mDtype = self.mDtype ∧ r.mDwidth = self.mDwidth ∧ r.mEndian = self.mEndian
      ∧ r.mFortranOrder = self.mFortranOrder ∧ r.mFlatLength = self.mFlatLength
      ∧ r.mData = self.mData ∧ r.GetFlatSize = self.GetFlatSize := by
  obtain ⟨r, hr⟩ := Reshape_defined self shape h
  refine ⟨r, hr, ?_⟩
  rcases Reshape_cases self shape r hr with ⟨-, h1⟩ | h1 | ⟨-, -, -, h1⟩ <;>
    rw [h1] <;> exact ⟨rfl, rfl, rfl, rfl, rfl, rfl, rfl⟩

theorem Reshape_frame_witness :
    ∃ r, Npy.Reshape float2x3 [3] = some r
      ∧ r.mDtype = float2x3.mDtype ∧ r.mDwidth = float2x3.mDwidth
      ∧ r.mEndian = float2x3.mEndian ∧ r.mFortranOrder = float2x3.mFortranOrder
      ∧ r.mFlatLength = float2x3.mFlatLength ∧ r.mData = float2x3.mData
      ∧ r.GetFlatSize = float2x3.GetFlatSize :=
  Reshape_frame float2x3 [3] (Or.inl (by decide))

/-- C20: `Reshape` is not total. The call is left without a result exactly when the
product of the requested shape is zero while the stored count is positive: the second
condition then evaluates `mFlatLength % new_size` with a zero divisor. A 24-element array
reshaped to `[0]` or to `[4, 0]` is such a call. -/
theorem Reshape_zero_divisor (self : Npy) (shape : List Int) :
    (self.Reshape shape = none ↔ (flat_size shape = 0 ∧ 0 < self.mFlatLength))
    ∧ flat_size [0] = 0 ∧ flat_size [4, 0] = 0
    ∧ Npy.Reshape { Npy.new with mShape := [24], mFlatLength := 24 } [0] = none
    ∧ Npy.Reshape { Npy.new with mShape := [24], mFlatLength := 24 } [4, 0] = none := by
  refine ⟨⟨?_, ?_⟩, by decide, by decide, by decide, by decide⟩
  · intro hn
    by_contra hc
    have hd : flat_size shape ≠ 0 ∨ self.mFlatLength = 0 := by omega
    obtain ⟨r, hr⟩ := Reshape_defined self shape hd
    rw [hn] at hr
    cases hr
  · rintro ⟨h1, h2⟩
    unfold Npy.Reshape
    simp only
    rw [if_neg (by omega), if_pos (by omega), if_pos h1]

/-! ### What a match of the shape pattern holds -/

theorem litStrip_some_length (l s r : List Char) (h : litStrip l s = some r) :
    r.length ≤ s.length := by
  induction l generalizing s with
  | nil =>
    cases s <;> simp only [litStrip, Option.some.injEq] at h <;> rw [← h]
  | cons c cs ih =>
    cases s with
    | nil => simp [litStrip] at h
    | cons x xs =>
      simp only [litStrip] at h
      by_cases hcx : c = x
      · rw [if_pos hcx] at h
        have := ih xs h
        simp only [List.length_cons]
        omega
      · rw [if_neg hcx] at h
        cases h

theorem starRun_some {α : Type} (p : Char → Bool) (k : List Char → Option α) (s : List Char)
    (r : α) (h : starRun p k s = some r) : ∃ t, t.length ≤ s.length ∧ k t = some r := by
  induction s with
  | nil => exact ⟨[], le_refl _, h⟩
  | cons x xs ih =>
    cases hx : p x with
    | false =>
      rw [starRun_stop p k x xs hx] at h
      exact ⟨x :: xs, le_refl _, h⟩
    | true =>
      rw [starRun_go p k x xs hx] at h
      cases hr : starRun p k xs with
      | none =>
        rw [hr] at h
        exact ⟨x :: xs, le_refl _, h⟩
      | some r1 =>
        rw [hr] at h
        obtain ⟨t, ht, hk⟩ := ih (by rw [hr, ← Option.some.inj h])
        exact ⟨t, by simp only [List.length_cons]; omega, hk⟩

theorem starRun_isSome {α : Type} (p : Char → Bool) (k : List Char → Option α)
    (hk : ∀ t, ∃ r, k t = some r) (s : List Char) : ∃ r, starRun p k s = some r := by
  induction s with
  | nil => exact hk []
  | cons x xs ih =>
    cases hx : p x with
    | false =>
      rw [starRun_stop p k x xs hx]
      exact hk _
    | true =>
      obtain ⟨r, hr⟩ := ih
      rw [starRun_go p k x xs hx, hr]
      exact ⟨r, rfl⟩

theorem search_inv (re : Regex) (s : List Char) (m : Match) (h : regex_search re s = some m) :
    ∃ t, re.matchAt t = some m := by
  induction s with
  | nil => exact ⟨[], h⟩
  | cons x xs ih =>
    simp only [regex_search] at h
    cases hm : re.matchAt (x :: xs) with
    | none =>
      rw [hm] at h
      exact ih h
    | some m1 =>
      rw [hm] at h
      exact ⟨x :: xs, by rw [hm, ← Option.some.inj h]⟩

/-- The first sub-match of the shape pattern starts with a digit. -/
theorem matchAt_reShape_sub (t : List Char) (m : Match) (h : reShape.matchAt t = some m) :
    ∃ d rest, isdigit d = true ∧ m.sub 1 = d :: rest := by
  unfold reShape Regex.matchAt at h
  rw [run_seq] at h
  simp only [Regex.run] at h
  cases hl : litStrip "'shape': (".toList t with
  | none => rw [hl] at h; cases h
  | some s1 =>
    rw [hl] at h
    simp only at h
    obtain ⟨s2, -, h2⟩ := starRun_some _ _ _ _ h
    cases s2 with
    | nil => cases h2
    | cons x xs =>
      simp only at h2
      cases hx : isdigit x with
      | false => rw [hx] at h2; cases h2
      | true =>
        rw [hx] at h2
        simp only [if_true] at h2
        obtain ⟨t1, ht1, h3⟩ := starRun_some _ _ _ _ h2
        obtain ⟨t2, ht2, h4⟩ := starRun_some _ _ _ _ h3
        cases hl2 : litStrip ")".toList t2 with
        | none => rw [hl2] at h4; cases h4
        | some s3 =>
          rw [hl2] at h4
          simp only [Option.some.injEq] at h4
          obtain ⟨n, hn⟩ : ∃ n, (x :: xs).length - t2.length = n + 1 :=
            ⟨(x :: xs).length - t2.length - 1, by simp only [List.length_cons]; omega⟩
          refine ⟨x, xs.take n, hx, ?_⟩
          rw [← h4]
          show (x :: xs).take ((x :: xs).length - t2.length) = _
          rw [hn, List.take_succ_cons]

theorem iter_digits_ne_nil (fuel : Nat) (d : Char) (rest : List Char) (hd : isdigit d = true) :
    regex_iter reDigits (fuel + 1) (d :: rest) ≠ [] := by
  have hm : ∃ m, reDigits.matchAt (d :: rest) = some m := by
    unfold reDigits Regex.matchAt
    rw [run_seq, run_cls _ _ _ _ _ hd, run_star]
    exact starRun_isSome _ _ (fun t => ⟨_, rfl⟩) rest
  obtain ⟨m, hm⟩ := hm
  rw [regex_iter_succ]
  simp only [searchFrom, hm]
  exact List.cons_ne_nil _ _

theorem pushShape_inv (runs : List (List Char)) (acc shape : List Int) (b : Bool)
    (h : pushShape acc runs = (shape, b)) :
    ∃ vals, shape = acc ++ vals
      ∧ (b = true → vals = runs.map (fun r => (digitsVal r : Int))) := by
  induction runs generalizing acc with
  | nil =>
    simp only [pushShape, Prod.mk.injEq] at h
    exact ⟨[], by rw [← h.1, List.append_nil], fun _ => rfl⟩
  | cons num nums ih =>
    rw [pushShape] at h
    cases hs : stoi num with
    | none =>
      rw [hs] at h
      simp only [Prod.mk.injEq] at h
      exact ⟨[], by rw [← h.1, List.append_nil], fun hb => by rw [← h.2] at hb; cases hb⟩
    | some v =>
      rw [hs] at h
      simp only at h
      have hv : v = (digitsVal num : Int) := by
        unfold stoi at hs
        split at hs
        · cases hs
        · split at hs
          · exact (Option.some.inj hs).symm
          · cases hs
      obtain ⟨vals, hvals, hb⟩ := ih (acc ++ [v]) h
      refine ⟨v :: vals, by rw [hvals, List.append_assoc]; rfl, fun hbt => ?_⟩
      rw [hb hbt, hv]
      rfl

/-! ### What the header parsers leave in the object -/

theorem runs_ne_nil (header : List Char) (m : Match) (h : regex_search reShape header = some m) :
    regex_iter reDigits ((m.sub 1).length + 1) (m.sub 1) ≠ [] := by
  obtain ⟨t, ht⟩ := search_inv reShape header m h
  obtain ⟨d, rest, hd, hsub⟩ := matchAt_reShape_sub t m ht
  rw [hsub]
  exact iter_digits_ne_nil _ d rest hd

theorem readShape_inv_true (self s : Npy) (header : List Char)
    (h : self.readShape header = (s, some true)) :
    ∃ m, regex_search reShape header = some m
      ∧ s = { self with
          mShape := self.mShape ++ (regex_iter reDigits ((m.sub 1).length + 1) (m.sub 1)).map
            (fun r => (digitsVal r : Int))
          mFlatLength := flat_size (self.mShape
            ++ (regex_iter reDigits ((m.sub 1).length + 1) (m.sub 1)).map
              (fun r => (digitsVal r : Int))) }
      ∧ s.mShape ≠ [] := by
  unfold Npy.readShape at h
  cases hs : regex_search reShape header with
  | none =>
    rw [hs] at h
    simp only [Prod.mk.injEq] at h
    cases h.2
  | some m =>
    rw [hs] at h
    simp only at h
    cases hp : pushShape self.mShape (regex_iter reDigits ((m.sub 1).length + 1) (m.sub 1)) with
    | mk shape b =>
      rw [hp] at h
      obtain ⟨vals, hshape, hvals⟩ := pushShape_inv _ _ _ _ hp
      cases b with
      | false =>
        simp only [Prod.mk.injEq] at h
        cases h.2
      | true =>
        simp only at h
        by_cases hne : shape ≠ []
        · rw [if_pos hne] at h
          simp only [Prod.mk.injEq, and_true] at h
          refine ⟨m, rfl, ?_, ?_⟩
          · rw [← h, hshape, hvals rfl]
          · rw [← h]
            exact hne
        · rw [if_neg hne] at h
          simp only [Prod.mk.injEq] at h
          cases h.2

theorem readShape_inv_false (self s : Npy) (header : List Char)
    (h : self.readShape header = (s, some false)) :
    s = self ∧ regex_search reShape header = none := by
  unfold Npy.readShape at h
  cases hs : regex_search reShape header with
  | none =>
    rw [hs] at h
    simp only [Prod.mk.injEq, and_true] at h
    exact ⟨h.symm, rfl⟩
  | some m =>
    rw [hs] at h
    simp only at h
    cases hp : pushShape self.mShape (regex_iter reDigits ((m.sub 1).length + 1) (m.sub 1)) with
    | mk shape b =>
      rw [hp] at h
      obtain ⟨vals, hshape, hvals⟩ := pushShape_inv _ _ _ _ hp
      cases b with
      | false =>
        simp only [Prod.mk.injEq] at h
        cases h.2
      | true =>
        simp only at h
        have hne : shape ≠ [] := by
          intro hnil
          rw [hnil] at hshape
          have hv : vals = [] := (List.append_eq_nil.mp hshape.symm).2
          rw [hvals rfl] at hv
          exact runs_ne_nil header m hs (List.map_eq_nil_iff.mp hv)
        rw [if_pos hne] at h
        simp only [Prod.mk.injEq] at h
        cases h.2

theorem readDescr_frame (self : Npy) (header : List Char) :
    (self.readDescr header).1.mShape = self.mShape
      ∧ (self.readDescr header).1.mFlatLength = self.mFlatLength
      ∧ (self.readDescr header).1.mData = self.mData
      ∧ ((self.readDescr header).2 = false →
          (self.readDescr header).1 = self ∧ regex_search reDescr header = none)
      ∧ (regex_search reDescr header = none → self.readDescr header = (self, false)) := by
  unfold Npy.readDescr
  cases regex_search reDescr header with
  | none =>
    refine ⟨rfl, rfl, rfl, ?_, ?_⟩
    · intro _
      exact ⟨rfl, rfl⟩
    · intro _
      rfl
  | some m =>
    refine ⟨rfl, rfl, rfl, ?_, ?_⟩
    · intro h
      cases h
    · intro h
      cases h

theorem readFortranOrder_frame (self : Npy) (header : List Char) :
    (self.readFortranOrder header).1.mShape = self.mShape
      ∧ (self.readFortranOrder header).1.mFlatLength = self.mFlatLength
      ∧ (self.readFortranOrder header).1.mData = self.mData
      ∧ ((self.readFortranOrder header).2 = false →
          (self.readFortranOrder header).1 = self
            ∧ regex_search reFortranOrder header = none)
      ∧ (regex_search reFortranOrder header = none →
          self.readFortranOrder header = (self, false)) := by
  unfold Npy.readFortranOrder
  cases regex_search reFortranOrder header with
  | none =>
    refine ⟨rfl, rfl, rfl, ?_, ?_⟩
    · intro _
      exact ⟨rfl, rfl⟩
    · intro _
      rfl
  | some m =>
    refine ⟨rfl, rfl, rfl, ?_, ?_⟩
    · intro h
      cases h
    · intro h
      cases h

theorem parseHeader_eq (self : Npy) (header : List Char) :
    self.parseHeader header
      = if (self.readDescr header).2 = false then ((self.readDescr header).1, some false)
        else if ((self.readDescr header).1.readFortranOrder header).2 = false then
          (((self.readDescr header).1.readFortranOrder header).1, some false)
        else ((self.readDescr header).1.readFortranOrder header).1.readShape header := by
  unfold Npy.parseHeader
  cases hd : self.readDescr header with
  | mk s1 b1 =>
    cases b1 with
    | false => rfl
    | true =>
      simp only
      cases hf : s1.readFortranOrder header with
      | mk s2 b2 =>
        cases b2 with
        | false => rfl
        | true => rfl

theorem parseHeader_inv_true (self s : Npy) (header : List Char)
    (h : self.parseHeader header = (s, some true)) :
    ∃ m, regex_search reShape header = some m
      ∧ s.mShape = self.mShape ++ (regex_iter reDigits ((m.sub 1).length + 1) (m.sub 1)).map
          (fun r => (digitsVal r : Int))
      ∧ s.mFlatLength = flat_size s.mShape ∧ s.mShape ≠ [] ∧ s.mData = self.mData := by
  rw [parseHeader_eq] at h
  obtain ⟨d1, d2, d3, -, -⟩ := readDescr_frame self header
  obtain ⟨f1, f2, f3, -, -⟩ := readFortranOrder_frame (self.readDescr header).1 header
  split at h
  · simp only [Prod.mk.injEq] at h
    cases h.2
  · split at h
    · simp only [Prod.mk.injEq] at h
      cases h.2
    · obtain ⟨m, hm, hs, hne⟩ := readShape_inv_true _ s header h
      refine ⟨m, hm, ?_, ?_, hne, ?_⟩
      · rw [hs, f1, d1]
      · rw [hs]
      · rw [hs]
        exact f3.trans d3

theorem parseHeader_inv_false (self s : Npy) (header : List Char)
    (h : self.parseHeader header = (s, some false)) :
    s.mShape = self.mShape ∧ s.mFlatLength = self.mFlatLength ∧ s.mData = self.mData := by
  rw [parseHeader_eq] at h
  obtain ⟨d1, d2, d3, -, -⟩ := readDescr_frame self header
  obtain ⟨f1, f2, f3, -, -⟩ := readFortranOrder_frame (self.readDescr header).1 header
  split at h
  · simp only [Prod.mk.injEq, and_true] at h
    rw [← h]
    exact ⟨d1, d2, d3⟩
  · split at h
    · simp only [Prod.mk.injEq, and_true] at h
      rw [← h]
      exact ⟨f1.trans d1, f2.trans d2, f3.trans d3⟩
    · obtain ⟨hs, -⟩ := readShape_inv_false _ s header h
      rw [hs]
      exact ⟨f1.trans d1, f2.trans d2, f3.trans d3⟩

/-! ### The ways `Load` is left -/

theorem Load_outcomes (self : Npy) (u : Uninit) (inp : List Char) :
    self.Load u inp = ⟨some .invalidMagic, self, inp.drop 6⟩
    ∨ self.Load u inp
        = ⟨some .invalidHeader, self, (inp.drop 10).drop ((getline (inp.drop 10)).length + 1)⟩
    ∨ (∃ s, self.parseHeader (getline (inp.drop 10)) = (s, none)
        ∧ self.Load u inp
          = ⟨some .stoiThrown, s, (inp.drop 10).drop ((getline (inp.drop 10)).length + 1)⟩)
    ∨ (∃ s, self.parseHeader (getline (inp.drop 10)) = (s, some false)
        ∧ self.Load u inp
          = ⟨some .parseFail, s, (inp.drop 10).drop ((getline (inp.drop 10)).length + 1)⟩)
    ∨ (∃ s, self.parseHeader (getline (inp.drop 10)) = (s, some true)
        ∧ self.Load u inp
          = ⟨some .badAlloc, s, (inp.drop 10).drop ((getline (inp.drop 10)).length + 1)⟩)
    ∨ (∃ s, self.parseHeader (getline (inp.drop 10)) = (s, some true)
        ∧ self.Load u inp
          = ⟨none,
              { s with mData := (readInto s.payloadSize.toNat u.heap
                  ((inp.drop 10).drop ((getline (inp.drop 10)).length + 1))) },
              ((inp.drop 10).drop ((getline (inp.drop 10)).length + 1)).drop
                s.payloadSize.toNat⟩) := by
  by_cases hm : readInto 6 u.magic inp = MAGIC
  · rw [Load_of_magic self u inp hm]
    by_cases hh : (getline (inp.drop 10)).length + 1
        ≠ le16 ((inp.drop 8).headD u.szC0) ((inp.drop 9).headD u.szC1)
    · rw [if_pos hh]
      exact Or.inr (Or.inl rfl)
    · rw [if_neg hh]
      cases hp : self.parseHeader (getline (inp.drop 10)) with
      | mk s b =>
        cases b with
        | none => exact Or.inr (Or.inr (Or.inl ⟨s, rfl, rfl⟩))
        | some b1 =>
          cases b1 with
          | false => exact Or.inr (Or.inr (Or.inr (Or.inl ⟨s, rfl, rfl⟩)))
          | true =>
            simp only
            by_cases hs : s.payloadSize < 0
            · rw [if_pos hs]
              exact Or.inr (Or.inr (Or.inr (Or.inr (Or.inl ⟨s, rfl, rfl⟩))))
            · rw [if_neg hs]
              exact Or.inr (Or.inr (Or.inr (Or.inr (Or.inr ⟨s, rfl, rfl⟩))))
  · rw [Load_of_bad_magic self u inp hm]
    exact Or.inl rfl

theorem Load_inv_ok (self : Npy) (u : Uninit) (inp : List Char)
    (h : (self.Load u inp).error = none) :
    ∃ s, self.parseHeader (getline (inp.drop 10)) = (s, some true)
      ∧ (self.Load u inp).npy
        = { s with mData := (readInto s.payloadSize.toNat u.heap
            ((inp.drop 10).drop ((getline (inp.drop 10)).length + 1))) } := by
  rcases Load_outcomes self u inp with h1 | h1 | ⟨s, -, h1⟩ | ⟨s, -, h1⟩ | ⟨s, -, h1⟩
    | ⟨s, hp, h1⟩
  · rw [h1] at h; cases h
  · rw [h1] at h; cases h
  · rw [h1] at h; cases h
  · rw [h1] at h; cases h
  · rw [h1] at h; cases h
  · exact ⟨s, hp, by rw [h1]⟩

theorem Load_inv_parseFail (self : Npy) (u : Uninit) (inp : List Char)
    (h : (self.Load u inp).error = some .parseFail) :
    ∃ s, self.parseHeader (getline (inp.drop 10)) = (s, some false)
      ∧ (self.Load u inp).npy = s := by
  rcases Load_outcomes self u inp with h1 | h1 | ⟨s, -, h1⟩ | ⟨s, hp, h1⟩ | ⟨s, -, h1⟩
    | ⟨s, -, h1⟩
  · rw [h1] at h; cases h
  · rw [h1] at h; cases h
  · rw [h1] at h; cases h
  · exact ⟨s, hp, by rw [h1]⟩
  · rw [h1] at h; cases h
  · rw [h1] at h; cases h

theorem Load_inv_pre (self : Npy) (u : Uninit) (inp : List Char)
    (h : (self.Load u inp).error = some .invalidMagic
      ∨ (self.Load u inp).error = some .invalidHeader) :
    (self.Load u inp).npy = self := by
  rcases Load_outcomes self u inp with h1 | h1 | ⟨s, -, h1⟩ | ⟨s, -, h1⟩ | ⟨s, -, h1⟩
    | ⟨s, -, h1⟩
  · rw [h1]
  · rw [h1]
  · rw [h1] at h; rcases h with h | h <;> cases h
  · rw [h1] at h; rcases h with h | h <;> cases h
  · rw [h1] at h; rcases h with h | h <;> cases h
  · rw [h1] at h; rcases h with h | h <;> cases h

/-! ### Decoded shape -/

/-- C13: whenever `Load` succeeds, the shape of the object afterwards is the shape it had
before the call followed by the values of the decimal runs inside the parentheses of the
shape field, in order: the runs are pushed behind the extents already there, so the result
is exactly the runs only when the object came in with an empty shape. -/
theorem Load_shape_appended (self : Npy) (u : Uninit) (inp : List Char)
    (h : (self.Load u inp).error = none) :
    ∃ m, regex_search reShape (getline (inp.drop 10)) = some m
      ∧ (self.Load u inp).npy.mShape
        = self.mShape ++ (regex_iter reDigits ((m.sub 1).length + 1) (m.sub 1)).map
            (fun r => (digitsVal r : Int)) := by
  obtain ⟨s, hp, hnpy⟩ := Load_inv_ok self u inp h
  obtain ⟨m, hm, hs, -, -, -⟩ := parseHeader_inv_true self s _ hp
  exact ⟨m, hm, by rw [hnpy]; exact hs⟩

set_option maxRecDepth 100000 in
theorem Load_shape_appended_witness :
    float2x3.Save
        = some (saveBytes
            "\x7b'descr': '<f4', 'fortran_order': False, 'shape': (2, 3), \x7d".toList
            float2x3.mData)
    ∧ (Npy.Load float2x3 Uninit.zero (saveBytes
        "\x7b'descr': '<f4', 'fortran_order': False, 'shape': (2, 3), \x7d".toList
        float2x3.mData)).npy.mShape = [2, 3, 2, 3]
    ∧ ∃ m, regex_search reShape (getline ((saveBytes
          "\x7b'descr': '<f4', 'fortran_order': False, 'shape': (2, 3), \x7d".toList
          float2x3.mData).drop 10)) = some m
      ∧ (Npy.Load float2x3 Uninit.zero (saveBytes
          "\x7b'descr': '<f4', 'fortran_order': False, 'shape': (2, 3), \x7d".toList
          float2x3.mData)).npy.mShape
        = float2x3.mShape ++ (regex_iter reDigits ((m.sub 1).length + 1) (m.sub 1)).map
            (fun r => (digitsVal r : Int)) :=
  ⟨by decide, by decide,
    Load_shape_appended float2x3 Uninit.zero (saveBytes
      "\x7b'descr': '<f4', 'fortran_order': False, 'shape': (2, 3), \x7d".toList
      float2x3.mData) (by decide)⟩

/-! ### Missing and empty fields -/

theorem parseHeader_missing (self : Npy) (header : List Char)
    (hmiss : regex_search reDescr header = none ∨ regex_search reFortranOrder header = none
      ∨ regex_search reShape header = none) :
    ∃ s, self.parseHeader header = (s, some false) := by
  obtain ⟨-, -, -, -, d5⟩ := readDescr_frame self header
  obtain ⟨-, -, -, -, f5⟩ := readFortranOrder_frame (self.readDescr header).1 header
  rw [parseHeader_eq]
  by_cases h1 : (self.readDescr header).2 = false
  · rw [if_pos h1]
    exact ⟨_, rfl⟩
  · rw [if_neg h1]
    by_cases h2 : ((self.readDescr header).1.readFortranOrder header).2 = false
    · rw [if_pos h2]
      exact ⟨_, rfl⟩
    · rw [if_neg h2]
      rcases hmiss with hm | hm | hm
      · rw [d5 hm] at h1
        exact absurd rfl h1
      · rw [f5 hm] at h2
        exact absurd rfl h2
      · unfold Npy.readShape
        rw [hm]
        exact ⟨_, rfl⟩

/-- C14 (amended): for every stream with the signature and a consistent header length
whose header has no text matching the descr pattern, or none matching the fortran_order
pattern, or none matching the shape pattern, `Load` throws the header-parse error, leaves
the payload unread in the stream and does not touch the buffer. -/
theorem Load_missing_field (self : Npy) (u : Uninit) (inp : List Char)
    (hm : inp.take 6 = MAGIC)
    (hh : (getline (inp.drop 10)).length + 1
      = le16 ((inp.drop 8).headD u.szC0) ((inp.drop 9).headD u.szC1))
    (hmiss : regex_search reDescr (getline (inp.drop 10)) = none
      ∨ regex_search reFortranOrder (getline (inp.drop 10)) = none
      ∨ regex_search reShape (getline (inp.drop 10)) = none) :
    (self.Load u inp).error = some .parseFail
    ∧ (self.Load u inp).rest = (inp.drop 10).drop ((getline (inp.drop 10)).length + 1)
    ∧ (self.Load u inp).npy.mData = self.mData := by
  have hm1 : readInto 6 u.magic inp = MAGIC := by
    rw [readInto_of_le 6 u.magic inp (take_eq_MAGIC_length inp hm)]
    exact hm
  obtain ⟨s, hs⟩ := parseHeader_missing self _ hmiss
  obtain ⟨-, -, hd⟩ := parseHeader_inv_false self s _ hs
  rw [Load_of_magic self u inp hm1, if_neg (not_not.mpr hh), hs]
  exact ⟨rfl, rfl, hd⟩

set_option maxRecDepth 100000 in
theorem Load_missing_field_witness :
    regex_search reFortranOrder (getline ((saveBytes noOrderText ['p', 'q']).drop 10)) = none
    ∧ (Npy.Load Npy.new Uninit.zero (saveBytes noOrderText ['p', 'q'])).error = some .parseFail
    ∧ (Npy.Load Npy.new Uninit.zero (saveBytes noOrderText ['p', 'q'])).rest
      = ((saveBytes noOrderText ['p', 'q']).drop 10).drop
          ((getline ((saveBytes noOrderText ['p', 'q']).drop 10)).length + 1)
    ∧ (Npy.Load Npy.new Uninit.zero (saveBytes noOrderText ['p', 'q'])).npy.mData
      = Npy.new.mData :=
  ⟨by decide,
    Load_missing_field Npy.new Uninit.zero (saveBytes noOrderText ['p', 'q']) (by decide)
      (by decide) (Or.inr (Or.inl (by decide)))⟩

set_option maxRecDepth 100000 in
/-- C14 (counterexample): a header whose shape field is `(99999999999,)` has no shape that
can be parsed into `int` extents, yet `Load` does not throw the header-parse error: it is
left by the exception of `stoi`. -/
theorem Load_shape_out_of_range :
    stoi "99999999999".toList = none
    ∧ (saveBytes overflowShapeText []).take 6 = MAGIC
    ∧ getline ((saveBytes overflowShapeText []).drop 10)
      = overflowShapeText ++ List.replicate (padding overflowShapeText.length) ' '
    ∧ (Npy.Load Npy.new Uninit.zero (saveBytes overflowShapeText [])).error
      = some .stoiThrown := by
  decide

theorem starRun_split {α : Type} (p : Char → Bool) (k : List Char → Option α) (s : List Char)
    (r : α) (h : starRun p k s = some r) :
    ∃ ws t, s = ws ++ t ∧ (∀ c ∈ ws, p c = true) ∧ k t = some r := by
  induction s with
  | nil => exact ⟨[], [], rfl, fun c hc => absurd hc (List.not_mem_nil c), h⟩
  | cons x xs ih =>
    cases hx : p x with
    | false =>
      rw [starRun_stop p k x xs hx] at h
      exact ⟨[], x :: xs, rfl, fun c hc => absurd hc (List.not_mem_nil c), h⟩
    | true =>
      rw [starRun_go p k x xs hx] at h
      cases hr : starRun p k xs with
      | none =>
        rw [hr] at h
        exact ⟨[], x :: xs, rfl, fun c hc => absurd hc (List.not_mem_nil c), h⟩
      | some r1 =>
        rw [hr] at h
        obtain ⟨ws, t, hs, hws, hk⟩ := ih (by rw [hr, ← Option.some.inj h])
        refine ⟨x :: ws, t, by rw [hs]; rfl, ?_, hk⟩
        intro c hc
        rcases List.mem_cons.mp hc with hc | hc
        · rw [hc]; exact hx
        · exact hws c hc

theorem matchAt_reShape_none (t : List Char) (h : tupleStartsEmpty t = true) :
    reShape.matchAt t = none := by
  cases hm : reShape.matchAt t with
  | none => rfl
  | some m =>
    exfalso
    unfold reShape Regex.matchAt at hm
    rw [run_seq] at hm
    simp only [Regex.run] at hm
    unfold tupleStartsEmpty at h
    cases hl : litStrip "'shape': (".toList t with
    | none => rw [hl] at hm; cases hm
    | some s1 =>
      rw [hl] at hm h
      simp only at hm h
      obtain ⟨ws, s2, hs1, hws, h2⟩ := starRun_split _ _ _ _ hm
      cases s2 with
      | nil => cases h2
      | cons x xs =>
        simp only at h2
        cases hx : isdigit x with
        | false => rw [hx] at h2; cases h2
        | true =>
          have hsp : ¬ isspace x = true := by
            have hx1 := hx
            simp only [isdigit, Bool.and_eq_true, decide_eq_true_eq] at hx1
            simp only [isspace, Bool.or_eq_true, beq_iff_eq, Bool.and_eq_true,
              decide_eq_true_eq]
            omega
          rw [hs1, List.dropWhile_append_of_pos hws, List.dropWhile_cons_of_neg hsp] at h
          simp only [hx, Bool.not_true] at h
          cases h

theorem search_reShape_none (header : List Char)
    (h : ∀ t ∈ header.tails, tupleStartsEmpty t = true) :
    regex_search reShape header = none := by
  induction header with
  | nil =>
    exact matchAt_reShape_none [] (h [] (by simp))
  | cons x xs ih =>
    have h1 := matchAt_reShape_none (x :: xs) (h _ (by simp))
    simp only [regex_search, h1]
    exact ih (fun t ht => h t (by
      rw [List.tails_cons]
      exact List.mem_cons_of_mem _ ht))

/-- C15: when no shape tuple with a leading extent starts anywhere in the header (wherever
the header reads `'shape': (`, what follows, blanks skipped, is not a digit, as in the empty
tuple `()`), `Load` fails; and every successful `Load`, into a fresh object or any other,
leaves a non-empty shape. -/
theorem Load_empty_shape (self : Npy) (u : Uninit) (inp : List Char) :
    ((∀ t ∈ (getline (inp.drop 10)).tails, tupleStartsEmpty t = true) →
      (self.Load u inp).error ≠ none)
    ∧ ((self.Load u inp).error = none → (self.Load u inp).npy.mShape ≠ []) := by
  constructor
  · intro h herr
    obtain ⟨s, hp, -⟩ := Load_inv_ok self u inp herr
    obtain ⟨m, hm, -⟩ := parseHeader_inv_true self s _ hp
    rw [search_reShape_none _ h] at hm
    cases hm
  · intro herr
    obtain ⟨s, hp, hnpy⟩ := Load_inv_ok self u inp herr
    obtain ⟨m, -, -, -, hne, -⟩ := parseHeader_inv_true self s _ hp
    rw [hnpy]
    exact hne

set_option maxRecDepth 100000 in
theorem Load_empty_shape_witness :
    getline ((saveBytes emptyTupleText []).drop 10)
      = emptyTupleText ++ List.replicate (padding emptyTupleText.length) ' '
    ∧ (Npy.Load Npy.new Uninit.zero (saveBytes emptyTupleText [])).error ≠ none
    ∧ (Npy.Load Npy.new Uninit.zero (saveBytes emptyTupleText [])).error = some .parseFail :=
  ⟨by decide,
    (Load_empty_shape Npy.new Uninit.zero (saveBytes emptyTupleText [])).1 (by decide),
    by decide⟩

/-! ### The object after a failed `Load` -/

theorem readDescr_of_some (self : Npy) (header : List Char) (m : Match)
    (h : regex_search reDescr header = some m) :
    self.readDescr header
      = ({ self with
            mEndian := if m.sub 1 = ">".toList then .BIG_ENDIAN else .LITTLE_ENDIAN
            mDtype :=
              if m.sub 2 = "i".toList then .INTEGER
              else if m.sub 2 = "f".toList then .FLOAT
              else if m.sub 2 = "c".toList then .COMPLEX
              else .NONE
            mDwidth := if m.sub 3 = [] then 1 else (stoi (m.sub 3)).getD 0 },
          true) := by
  unfold Npy.readDescr
  rw [h]

theorem readFortranOrder_of_some (self : Npy) (header : List Char) (m : Match)
    (h : regex_search reFortranOrder header = some m) :
    self.readFortranOrder header
      = ({ self with mFortranOrder := decide (m.sub 1 = "True".toList) }, true) := by
  unfold Npy.readFortranOrder
  rw [h]

/-- The object a failed header parse leaves: the one the readers that found their field
have written into. -/
theorem parseHeader_false_state (self s : Npy) (header : List Char)
    (h : self.parseHeader header = (s, some false)) :
    s = if regex_search reDescr header = none then self
        else if regex_search reFortranOrder header = none then (self.readDescr header).1
        else ((self.readDescr header).1.readFortranOrder header).1 := by
  rw [parseHeader_eq] at h
  obtain ⟨-, -, -, d4, d5⟩ := readDescr_frame self header
  obtain ⟨-, -, -, f4, f5⟩ := readFortranOrder_frame (self.readDescr header).1 header
  by_cases hd : (self.readDescr header).2 = false
  · rw [if_pos hd] at h
    obtain ⟨hself, hnone⟩ := d4 hd
    rw [if_pos hnone, ← hself]
    exact (congrArg Prod.fst h).symm
  · rw [if_neg hd] at h
    have hsome : ¬ regex_search reDescr header = none := by
      intro hn
      rw [d5 hn] at hd
      exact hd rfl
    rw [if_neg hsome]
    by_cases hf : ((self.readDescr header).1.readFortranOrder header).2 = false
    · rw [if_pos hf] at h
      obtain ⟨hself, hnone⟩ := f4 hf
      rw [if_pos hnone, ← hself]
      exact (congrArg Prod.fst h).symm
    · rw [if_neg hf] at h
      have hfsome : ¬ regex_search reFortranOrder header = none := by
        intro hn
        rw [f5 hn] at hf
        exact hf rfl
      rw [if_neg hfsome]
      exact (readShape_inv_false _ s header h).1

/-- C16 (amended): when `Load` fails with the invalid-magic or the invalid-header error, the
object is exactly as before the call. When it fails with the header-parse error, the shape,
the element count and the buffer are as before the call. If the header has no descr field
the object is exactly as before the call; otherwise byte order, dtype and element width
hold what the first descr field decodes to (big-endian for `>`, little-endian otherwise;
the dtype of the type letter; the width digit, or 1 when there is none). The order flag is
as before the call if the header has no fortran_order field, and holds the value of the
first fortran_order field if the header has a descr field and a fortran_order field. -/
theorem Load_failure_state (self : Npy) (u : Uninit) (inp : List Char)
    (h : (self.Load u inp).error = some .invalidMagic
      ∨ (self.Load u inp).error = some .invalidHeader
      ∨ (self.Load u inp).error = some .parseFail) :
    (self.Load u inp).npy.mShape = self.mShape
    ∧ (self.Load u inp).npy.mFlatLength = self.mFlatLength
    ∧ (self.Load u inp).npy.mData = self.mData
    ∧ ((self.Load u inp).error ≠ some .parseFail → (self.Load u inp).npy = self)
    ∧ ((self.Load u inp).error = some .parseFail →
        (regex_search reDescr (getline (inp.drop 10)) = none → (self.Load u inp).npy = self)
        ∧ (∀ m, regex_search reDescr (getline (inp.drop 10)) = some m →
            (self.Load u inp).npy.mEndian
              = (if m.sub 1 = ">".toList then .BIG_ENDIAN else .LITTLE_ENDIAN)
            ∧ (self.Load u inp).npy.mDtype
              = (if m.sub 2 = "i".toList then .INTEGER
                else if m.sub 2 = "f".toList then .FLOAT
                else if m.sub 2 = "c".toList then .COMPLEX
                else .NONE)
            ∧ (self.Load u inp).npy.mDwidth
              = (if m.sub 3 = [] then 1 else (stoi (m.sub 3)).getD 0))
        ∧ (regex_search reFortranOrder (getline (inp.drop 10)) = none →
            (self.Load u inp).npy.mFortranOrder = self.mFortranOrder)
        ∧ (∀ m1 m2, regex_search reDescr (getline (inp.drop 10)) = some m1 →
            regex_search reFortranOrder (getline (inp.drop 10)) = some m2 →
            (self.Load u inp).npy.mFortranOrder = decide (m2.sub 1 = "True".toList))) := by
  by_cases hp : (self.Load u inp).error = some .parseFail
  · obtain ⟨s, hs, hnpy⟩ := Load_inv_parseFail self u inp hp
    obtain ⟨h1, h2, h3⟩ := parseHeader_inv_false self s _ hs
    have hst := parseHeader_false_state self s _ hs
    rw [hnpy]
    refine ⟨h1, h2, h3, fun hn => absurd hp hn, fun _ => ⟨?_, ?_, ?_, ?_⟩⟩
    · intro hn
      rw [hst, if_pos hn]
    · intro m hm
      have hne : ¬ regex_search reDescr (getline (inp.drop 10)) = none := by
        rw [hm]
        exact Option.some_ne_none m
      rw [hst, if_neg hne, readDescr_of_some self _ m hm]
      by_cases hf : regex_search reFortranOrder (getline (inp.drop 10)) = none
      · rw [if_pos hf]
        exact ⟨rfl, rfl, rfl⟩
      · rw [if_neg hf]
        obtain ⟨m2, hm2⟩ := Option.ne_none_iff_exists'.mp hf
        rw [readFortranOrder_of_some _ _ m2 hm2]
        exact ⟨rfl, rfl, rfl⟩
    · intro hf
      rw [hst, if_pos hf]
      by_cases hd : regex_search reDescr (getline (inp.drop 10)) = none
      · rw [if_pos hd]
      · rw [if_neg hd]
        obtain ⟨m1, hm1⟩ := Option.ne_none_iff_exists'.mp hd
        rw [readDescr_of_some self _ m1 hm1]
    · intro m1 m2 hm1 hm2
      have hne1 : ¬ regex_search reDescr (getline (inp.drop 10)) = none := by
        rw [hm1]
        exact Option.some_ne_none m1
      have hne2 : ¬ regex_search reFortranOrder (getline (inp.drop 10)) = none := by
        rw [hm2]
        exact Option.some_ne_none m2
      rw [hst, if_neg hne1, if_neg hne2, readFortranOrder_of_some _ _ m2 hm2]
  · have hpre : (self.Load u inp).error = some .invalidMagic
        ∨ (self.Load u inp).error = some .invalidHeader := by
      rcases h with h | h | h
      · exact Or.inl h
      · exact Or.inr h
      · exact absurd h hp
    have := Load_inv_pre self u inp hpre
    rw [this]
    exact ⟨rfl, rfl, rfl, fun _ => rfl, fun hq => absurd hq hp⟩

set_option maxRecDepth 100000 in
theorem Load_failure_state_witness :
    (Npy.Load float2x3 Uninit.zero (saveBytes noShapeText [])).error = some .parseFail
    ∧ (Npy.Load float2x3 Uninit.zero (saveBytes noShapeText [])).npy
      = { float2x3 with
          mDtype := .FLOAT, mDwidth := 8, mEndian := .BIG_ENDIAN, mFortranOrder := true }
    ∧ (Npy.Load float2x3 Uninit.zero (saveBytes noShapeText [])).npy.mShape = float2x3.mShape
    ∧ (Npy.Load float2x3 Uninit.zero (saveBytes noShapeText [])).npy.mFlatLength
      = float2x3.mFlatLength
    ∧ (Npy.Load float2x3 Uninit.zero (saveBytes noShapeText [])).npy.mData = float2x3.mData :=
  ⟨by decide, by decide,
    (Load_failure_state float2x3 Uninit.zero (saveBytes noShapeText [])
      (Or.inr (Or.inr (by decide)))).1,
    (Load_failure_state float2x3 Uninit.zero (saveBytes noShapeText [])
      (Or.inr (Or.inr (by decide)))).2.1,
    (Load_failure_state float2x3 Uninit.zero (saveBytes noShapeText [])
      (Or.inr (Or.inr (by decide)))).2.2.1⟩

set_option maxRecDepth 100000 in
/-- C16 (counterexample): `Load` into a default-constructed object of a stream whose header
has a descr field `>f8` and a shape but no fortran_order field fails with the header-parse
error and leaves dtype Float, width 8 and big-endian in the object; with a descr field and
`'fortran_order': True` but no shape field it also leaves the order flag set. -/
theorem Load_failure_not_atomic :
    Npy.Load Npy.new Uninit.zero (saveBytes noOrderText [])
      = ⟨some .parseFail,
          { Npy.new with mDtype := .FLOAT, mDwidth := 8, mEndian := .BIG_ENDIAN }, []⟩
    ∧ Npy.Load Npy.new Uninit.zero (saveBytes noShapeText [])
      = ⟨some .parseFail,
          { Npy.new with
            mDtype := .FLOAT, mDwidth := 8, mEndian := .BIG_ENDIAN, mFortranOrder := true },
          []⟩ := by
  decide

/-! ### The element count and the shape -/

theorem wrapInt32_modEq (a : Int) : wrapInt32 a ≡ a [ZMOD 4294967296] := by
  have h : wrapInt32 a = a + 4294967296 * (-((a + 2147483648) / 4294967296)) := by
    unfold wrapInt32
    have := Int.emod_add_ediv (a + 2147483648) 4294967296
    omega
  unfold Int.ModEq
  rw [h, Int.add_mul_emod_self_left]

theorem toSizeT_modEq (a : Int) : ((toSizeT a : Nat) : Int) ≡ a [ZMOD 4294967296] := by
  unfold Int.ModEq toSizeT
  have h0 : 0 ≤ a % 18446744073709551616 := Int.emod_nonneg _ (by decide)
  rw [Int.toNat_of_nonneg h0]
  exact Int.emod_emod_of_dvd a (by decide)

theorem wrapInt32_congr (a b : Int) (h : a ≡ b [ZMOD 4294967296]) :
    wrapInt32 a = wrapInt32 b := by
  unfold wrapInt32
  have := Int.ModEq.add_right 2147483648 h
  unfold Int.ModEq at this
  rw [this]

theorem flat_size_append (shape : List Int) (q : Int) :
    flat_size (shape ++ [q])
      = toSizeT (wrapInt32 (shape.foldl (fun acc i => wrapInt32 (acc * i)) 1 * q)) := by
  unfold flat_size
  rw [List.foldl_append]
  rfl

theorem flat_size_append_quot (old shape : List Int)
    (hdvd : flat_size old % flat_size shape = 0) :
    flat_size (shape ++ [wrapInt32 ((flat_size old / flat_size shape : Nat) : Int)])
      = flat_size old := by
  have hV := foldl_wrap_range old 1 (by decide)
  have hmul : ((flat_size shape : Nat) : Int) * ((flat_size old / flat_size shape : Nat) : Int)
      = ((flat_size old : Nat) : Int) := by
    have := Nat.mul_div_cancel' (Nat.dvd_of_mod_eq_zero hdvd)
    exact_mod_cast this
  have h1 : shape.foldl (fun acc i => wrapInt32 (acc * i)) 1
        * wrapInt32 ((flat_size old / flat_size shape : Nat) : Int)
      ≡ old.foldl (fun acc i => wrapInt32 (acc * i)) 1 [ZMOD 4294967296] := by
    have e1 := Int.ModEq.mul (toSizeT_modEq (shape.foldl (fun acc i => wrapInt32 (acc * i)) 1)).symm
      (wrapInt32_modEq ((flat_size old / flat_size shape : Nat) : Int))
    have e2 := toSizeT_modEq (old.foldl (fun acc i => wrapInt32 (acc * i)) 1)
    have e3 : ((toSizeT (shape.foldl (fun acc i => wrapInt32 (acc * i)) 1) : Nat) : Int)
          * ((flat_size old / flat_size shape : Nat) : Int)
        = ((toSizeT (old.foldl (fun acc i => wrapInt32 (acc * i)) 1) : Nat) : Int) := hmul
    rw [e3] at e1
    exact e1.trans e2
  rw [flat_size_append, wrapInt32_congr _ _ h1, hV]
  rfl

theorem Reshape_keeps_count (x : Npy) (shape : List Int) (r : Npy)
    (hinv : x.mFlatLength = flat_size x.mShape) (h : x.Reshape shape = some r) :
    r.mFlatLength = flat_size r.mShape := by
  rcases Reshape_cases x shape r h with ⟨h0, h1⟩ | h1 | ⟨-, -, hdvd, h1⟩
  · rw [h1]
    exact h0.symm
  · rw [h1]
    exact hinv
  · rw [h1]
    show x.mFlatLength = flat_size (shape ++ [wrapInt32 (x.mFlatLength / flat_size shape)])
    rw [hinv] at hdvd ⊢
    exact (flat_size_append_quot x.mShape shape hdvd).symm

theorem reshapeAll_keeps_count (shapes : List (List Int)) (x : Npy)
    (hinv : x.mFlatLength = flat_size x.mShape) (hpos : ∀ s ∈ shapes, 0 < flat_size s) :
    ∃ r, reshapeAll x shapes = some r ∧ r.mFlatLength = flat_size r.mShape := by
  induction shapes generalizing x with
  | nil => exact ⟨x, rfl, hinv⟩
  | cons shape rest ih =>
    have h0 : 0 < flat_size shape := hpos shape (List.mem_cons_self shape rest)
    obtain ⟨y, hy⟩ := Reshape_defined x shape (Or.inl (Nat.ne_of_gt h0))
    obtain ⟨r, hr, hri⟩ := ih y (Reshape_keeps_count x shape y hinv hy)
      (fun s hs => hpos s (List.mem_cons_of_mem shape hs))
    refine ⟨r, ?_, hri⟩
    rw [reshapeAll, hy]
    exact hr

theorem Load_count (self : Npy) (u : Uninit) (inp : List Char)
    (h : (self.Load u inp).error = none) :
    (self.Load u inp).npy.mFlatLength = flat_size (self.Load u inp).npy.mShape := by
  obtain ⟨s, hp, hnpy⟩ := Load_inv_ok self u inp h
  obtain ⟨m, -, -, hc, -, -⟩ := parseHeader_inv_true self s _ hp
  rw [hnpy]
  exact hc

theorem GetFlatSize_eq_mul (r : Npy) (hinv : r.mFlatLength = flat_size r.mShape)
    (hfp : (flat_size r.mShape : Int) = r.mShape.prod) (h1 : r.mShape.prod < 2147483648)
    (hw0 : 0 ≤ r.mDwidth) (hw1 : r.mDwidth < 2147483648) :
    (r.GetFlatSize : Int) = r.mDwidth * r.mShape.prod := by
  obtain ⟨w, hw⟩ : ∃ w : Nat, r.mDwidth = (w : Int) := ⟨r.mDwidth.toNat, by omega⟩
  have hwlt : w < 2147483648 := by omega
  have hflt : flat_size r.mShape < 2147483648 := by omega
  have hmod : toSizeT (w : Int) = w := by
    unfold toSizeT
    omega
  have hprod : w * flat_size r.mShape < 18446744073709551616 := by
    have : w * flat_size r.mShape ≤ 2147483648 * 2147483648 :=
      Nat.mul_le_mul (Nat.le_of_lt hwlt) (Nat.le_of_lt hflt)
    omega
  unfold Npy.GetFlatSize
  rw [hinv, hw, hmod, Nat.mod_eq_of_lt hprod, ← hfp]
  push_cast
  rfl

theorem run_some (r : Regex) (k : List Char → Caps → Option Match) (s : List Char) (c : Caps)
    (m : Match) (h : r.run k s c = some m) : ∃ s1 c1, k s1 c1 = some m := by
  induction r generalizing k s c with
  | lit l =>
    simp only [Regex.run] at h
    cases hl : litStrip l s with
    | none => rw [hl] at h; cases h
    | some s1 => rw [hl] at h; exact ⟨s1, c, h⟩
  | cls p =>
    cases s with
    | nil => simp only [Regex.run] at h; cases h
    | cons x xs =>
      simp only [Regex.run] at h
      by_cases hp : p x = true
      · rw [if_pos hp] at h; exact ⟨xs, c, h⟩
      · rw [if_neg hp] at h; cases h
  | opt r ih =>
    simp only [Regex.run] at h
    cases hr : r.run k s c with
    | some m1 =>
      rw [hr] at h
      exact ih k s c (hr.trans h)
    | none => rw [hr] at h; exact ⟨s, c, h⟩
  | star p =>
    simp only [Regex.run] at h
    obtain ⟨t, -, ht⟩ := starRun_some _ _ _ _ h
    exact ⟨t, c, ht⟩
  | seq a b iha ihb =>
    rw [run_seq] at h
    obtain ⟨s1, c1, h1⟩ := iha _ s c h
    exact ihb k s1 c1 h1
  | alt a b iha ihb =>
    simp only [Regex.run] at h
    cases hr : a.run k s c with
    | some m1 =>
      rw [hr] at h
      exact iha k s c (hr.trans h)
    | none => rw [hr] at h; exact ihb k s c h
  | group i r ih =>
    simp only [Regex.run] at h
    obtain ⟨s1, c1, h1⟩ := ih _ s c h
    exact ⟨s1, _, h1⟩

theorem run_lit_caps (l s : List Char) (c : Caps) (m : Match)
    (h : (Regex.lit l).run (fun s1 c1 => some ⟨c1, s1⟩) s c = some m) : m.caps = c := by
  simp only [Regex.run] at h
  cases hl : litStrip l s with
  | none => rw [hl] at h; cases h
  | some s1 =>
    rw [hl] at h
    rw [← Option.some.inj h]

theorem sub_head (m : Match) (i : Nat) (v : List Char) (c : Caps) (h : m.caps = (i, v) :: c) :
    m.sub i = v := by
  unfold Match.sub
  rw [h]
  simp [List.lookup]

/-- The third sub-match of the descr pattern is empty or one digit. -/
theorem matchAt_reDescr_sub (t : List Char) (m : Match) (h : reDescr.matchAt t = some m) :
    m.sub 3 = [] ∨ ∃ d, isdigit d = true ∧ m.sub 3 = [d] := by
  unfold reDescr Regex.matchAt at h
  rw [run_seq] at h
  obtain ⟨s1, c1, h1⟩ := run_some _ _ _ _ _ h
  rw [run_seq] at h1
  obtain ⟨s2, c2, h2⟩ := run_some _ _ _ _ _ h1
  rw [run_seq] at h2
  obtain ⟨s3, c3, h3⟩ := run_some _ _ _ _ _ h2
  rw [run_seq] at h3
  have hfall : (Regex.lit "'".toList).run (fun s1 c1 => some ⟨c1, s1⟩) s3
      ((3, s3.take (s3.length - s3.length)) :: c3) = some m → m.sub 3 = [] := by
    intro hk
    rw [sub_head m 3 _ c3 (run_lit_caps _ _ _ m hk), Nat.sub_self, List.take_zero]
  cases s3 with
  | nil =>
    simp only [Regex.run] at h3 hfall
    exact Or.inl (hfall h3)
  | cons x xs =>
    cases hx : isdigit x with
    | false =>
      simp only [Regex.run, hx, Bool.false_eq_true, if_false] at h3 hfall
      exact Or.inl (hfall h3)
    | true =>
      simp only [Regex.run, hx, if_true] at h3 hfall
      cases hl : litStrip "'".toList xs with
      | none =>
        rw [hl] at h3
        exact Or.inl (hfall h3)
      | some s4 =>
        rw [hl] at h3
        refine Or.inr ⟨x, hx, ?_⟩
        have hm : m.caps
            = (3, (x :: xs).take ((x :: xs).length - xs.length)) :: c3 := by
          rw [← Option.some.inj h3]
        rw [sub_head m 3 _ c3 hm]
        simp

theorem digit_val_le (d : Char) (h : isdigit d = true) : digitsVal [d] ≤ 9 := by
  simp only [isdigit, Bool.and_eq_true, decide_eq_true_eq] at h
  simp only [digitsVal, List.foldl_cons, List.foldl_nil]
  omega

theorem readDescr_width (self : Npy) (header : List Char)
    (h : (self.readDescr header).2 = true) :
    0 ≤ (self.readDescr header).1.mDwidth ∧ (self.readDescr header).1.mDwidth ≤ 9 := by
  unfold Npy.readDescr at h ⊢
  cases hs : regex_search reDescr header with
  | none => rw [hs] at h; cases h
  | some m =>
    obtain ⟨t, ht⟩ := search_inv reDescr header m hs
    simp only
    rcases matchAt_reDescr_sub t m ht with h3 | ⟨d, hd, h3⟩
    · rw [if_pos h3]
      omega
    · have hv := digit_val_le d hd
      rw [h3, if_neg (List.cons_ne_nil d []), stoi, if_neg (List.cons_ne_nil d []),
        if_pos (by omega)]
      simp only [Option.getD_some]
      omega

theorem readFortranOrder_width (self : Npy) (header : List Char) :
    (self.readFortranOrder header).1.mDwidth = self.mDwidth := by
  unfold Npy.readFortranOrder
  cases regex_search reFortranOrder header <;> rfl

theorem parseHeader_width (self s : Npy) (header : List Char)
    (h : self.parseHeader header = (s, some true)) : 0 ≤ s.mDwidth ∧ s.mDwidth ≤ 9 := by
  rw [parseHeader_eq] at h
  by_cases hd : (self.readDescr header).2 = false
  · rw [if_pos hd] at h
    simp only [Prod.mk.injEq] at h
    cases h.2
  · rw [if_neg hd] at h
    by_cases hf : ((self.readDescr header).1.readFortranOrder header).2 = false
    · rw [if_pos hf] at h
      simp only [Prod.mk.injEq] at h
      cases h.2
    · rw [if_neg hf] at h
      obtain ⟨m, -, hs, -⟩ := readShape_inv_true _ s header h
      have hw : s.mDwidth = (self.readDescr header).1.mDwidth := by
        rw [hs]
        exact readFortranOrder_width _ header
      rw [hw]
      exact readDescr_width self header (by simpa using hd)

theorem Load_width (self : Npy) (u : Uninit) (inp : List Char)
    (h : (self.Load u inp).error = none) :
    0 ≤ (self.Load u inp).npy.mDwidth ∧ (self.Load u inp).npy.mDwidth ≤ 9 := by
  obtain ⟨s, hp, hnpy⟩ := Load_inv_ok self u inp h
  rw [hnpy]
  exact parseHeader_width self s _ hp

theorem Reshape_keeps_prod (x : Npy) (shape : List Int) (r : Npy)
    (hinv : (x.mFlatLength : Int) = x.mShape.prod) (hc : x.mFlatLength < 2147483648)
    (h0 : 0 < shape.prod) (h1 : shape.prod < 2147483648) (h : x.Reshape shape = some r) :
    (r.mFlatLength : Int) = r.mShape.prod ∧ r.mFlatLength < 2147483648
      ∧ r.mDwidth = x.mDwidth := by
  have hfp := flat_size_eq_prod shape (by omega) h1
  rcases Reshape_cases x shape r h with ⟨he, hr⟩ | hr | ⟨-, hlt, hdvd, hr⟩
  · rw [hr]
    refine ⟨?_, hc, rfl⟩
    show (x.mFlatLength : Int) = shape.prod
    rw [← hfp, he]
  · rw [hr]
    exact ⟨hinv, hc, rfl⟩
  · rw [hr]
    refine ⟨?_, hc, rfl⟩
    show (x.mFlatLength : Int)
      = (shape ++ [wrapInt32 ((x.mFlatLength : Int) / (flat_size shape : Int))]).prod
    have hq : x.mFlatLength / flat_size shape < 2147483648 :=
      lt_of_le_of_lt (Nat.div_le_self _ _) hc
    have hw : wrapInt32 ((x.mFlatLength : Int) / (flat_size shape : Int))
        = ((x.mFlatLength / flat_size shape : Nat) : Int) := by
      rw [← Int.natCast_div]
      generalize x.mFlatLength / flat_size shape = q at hq
      exact wrapInt32_of_range _ (by omega) (by omega)
    have hmul : flat_size shape * (x.mFlatLength / flat_size shape) = x.mFlatLength :=
      Nat.mul_div_cancel' (Nat.dvd_of_mod_eq_zero hdvd)
    rw [hw, List.prod_append, List.prod_singleton, ← hfp]
    exact_mod_cast hmul.symm

theorem reshapeAll_keeps_prod (shapes : List (List Int)) (x : Npy)
    (hinv : (x.mFlatLength : Int) = x.mShape.prod) (hc : x.mFlatLength < 2147483648)
    (hpos : ∀ s ∈ shapes, 0 < s.prod ∧ s.prod < 2147483648) :
    ∃ r, reshapeAll x shapes = some r ∧ (r.mFlatLength : Int) = r.mShape.prod
      ∧ r.mFlatLength < 2147483648 ∧ r.mDwidth = x.mDwidth := by
  induction shapes generalizing x with
  | nil => exact ⟨x, rfl, hinv, hc, rfl⟩
  | cons shape rest ih =>
    obtain ⟨h0, h1⟩ := hpos shape (List.mem_cons_self shape rest)
    have hfp := flat_size_eq_prod shape (by omega) h1
    have hne : flat_size shape ≠ 0 := by
      intro hz
      rw [hz] at hfp
      simp at hfp
      omega
    obtain ⟨y, hy⟩ := Reshape_defined x shape (Or.inl hne)
    obtain ⟨hyi, hyc, hyw⟩ := Reshape_keeps_prod x shape y hinv hc h0 h1 hy
    obtain ⟨r, hr, hri, hrc, hrw⟩ := ih y hyi hyc
      (fun s hs => hpos s (List.mem_cons_of_mem shape hs))
    refine ⟨r, ?_, hri, hrc, hrw.trans hyw⟩
    rw [reshapeAll, hy]
    exact hr

theorem GetFlatSize_eq_width_mul_prod (r : Npy) (hinv : (r.mFlatLength : Int) = r.mShape.prod)
    (hc : r.mFlatLength < 2147483648) (hw0 : 0 ≤ r.mDwidth) (hw1 : r.mDwidth ≤ 9) :
    (r.GetFlatSize : Int) = r.mDwidth * r.mShape.prod := by
  have hfp := flat_size_eq_prod r.mShape (by omega) (by omega)
  exact GetFlatSize_eq_mul r (by omega) hfp (by omega) hw0 (by omega)

/-- C18 (amended): the predicate "the stored element count is the product of all shape
entries" is established by every successful `Load` that leaves a shape whose product is
from 0 to 2^31 - 1, and is kept, together with a count below 2^31, by every `Reshape`
call with a shape whose product is positive and below 2^31, whichever branch it takes; so
after such a `Load` followed by any sequence of such `Reshape` calls, every call returns,
the product of the final shape is the stored count, and `GetFlatSize` is the element width
times that product. With no bound on the products, the predicate that every successful
`Load` establishes and every `Reshape` call that returns keeps is the one whose product is
computed as `flat_size` does, in `int` arithmetic. -/
theorem count_invariant :
    (∀ (self : Npy) (u : Uninit) (inp : List Char), (self.Load u inp).error = none →
      0 ≤ (self.Load u inp).npy.mShape.prod →
      (self.Load u inp).npy.mShape.prod < 2147483648 →
      ((self.Load u inp).npy.mFlatLength : Int) = (self.Load u inp).npy.mShape.prod)
    ∧ (∀ (x : Npy) (shape : List Int) (r : Npy),
        (x.mFlatLength : Int) = x.mShape.prod → x.mFlatLength < 2147483648 →
        0 < shape.prod → shape.prod < 2147483648 → x.Reshape shape = some r →
        (r.mFlatLength : Int) = r.mShape.prod ∧ r.mFlatLength < 2147483648)
    ∧ (∀ (self : Npy) (u : Uninit) (inp : List Char) (shapes : List (List Int)),
        (self.Load u inp).error = none →
        0 ≤ (self.Load u inp).npy.mShape.prod →
        (self.Load u inp).npy.mShape.prod < 2147483648 →
        (∀ s ∈ shapes, 0 < s.prod ∧ s.prod < 2147483648) →
        ∃ r, reshapeAll (self.Load u inp).npy shapes = some r
          ∧ r.mShape.prod = (r.mFlatLength : Int)
          ∧ (r.GetFlatSize : Int) = r.mDwidth * r.mShape.prod)
    ∧ (∀ (self : Npy) (u : Uninit) (inp : List Char), (self.Load u inp).error = none →
        (self.Load u inp).npy.mFlatLength = flat_size (self.Load u inp).npy.mShape)
    ∧ (∀ (x : Npy) (shape : List Int) (r : Npy), x.mFlatLength = flat_size x.mShape →
        x.Reshape shape = some r → r.mFlatLength = flat_size r.mShape) := by
  have hload : ∀ (self : Npy) (u : Uninit) (inp : List Char),
      (self.Load u inp).error = none → 0 ≤ (self.Load u inp).npy.mShape.prod →
      (self.Load u inp).npy.mShape.prod < 2147483648 →
      ((self.Load u inp).npy.mFlatLength : Int) = (self.Load u inp).npy.mShape.prod := by
    intro self u inp herr h0 h1
    rw [Load_count self u inp herr]
    exact flat_size_eq_prod _ h0 h1
  refine ⟨hload, ?_, ?_, Load_count, Reshape_keeps_count⟩
  · intro x shape r hinv hc h0 h1 h
    obtain ⟨a, b, -⟩ := Reshape_keeps_prod x shape r hinv hc h0 h1 h
    exact ⟨a, b⟩
  · intro self u inp shapes herr h0 h1 hpos
    have hinv := hload self u inp herr h0 h1
    obtain ⟨r, hr, hri, hrc, hrw⟩ :=
      reshapeAll_keeps_prod shapes _ hinv (by omega) hpos
    obtain ⟨w0, w9⟩ := Load_width self u inp herr
    refine ⟨r, hr, hri.symm, ?_⟩
    exact GetFlatSize_eq_width_mul_prod r hri hrc (by rw [hrw]; exact w0)
      (by rw [hrw]; exact w9)

set_option maxRecDepth 100000 in
theorem count_invariant_witness :
    (Npy.Load Npy.new Uninit.zero (saveBytes
        "\x7b'descr': '<f4', 'fortran_order': False, 'shape': (2, 3), \x7d".toList
        float2x3.mData)).npy.mShape.prod = 6
    ∧ reshapeAll (Npy.Load Npy.new Uninit.zero (saveBytes
        "\x7b'descr': '<f4', 'fortran_order': False, 'shape': (2, 3), \x7d".toList
        float2x3.mData)).npy [[3], [4], [6]] = some { float2x3 with mShape := [6] }
    ∧ ∃ r, reshapeAll (Npy.Load Npy.new Uninit.zero (saveBytes
          "\x7b'descr': '<f4', 'fortran_order': False, 'shape': (2, 3), \x7d".toList
          float2x3.mData)).npy [[3], [4], [6]] = some r
      ∧ r.mShape.prod = (r.mFlatLength : Int)
      ∧ (r.GetFlatSize : Int) = r.mDwidth * r.mShape.prod :=
  ⟨by decide, by decide,
    count_invariant.2.2.1 Npy.new Uninit.zero (saveBytes
      "\x7b'descr': '<f4', 'fortran_order': False, 'shape': (2, 3), \x7d".toList
      float2x3.mData) [[3], [4], [6]] (by decide) (by decide) (by decide) (by decide)⟩

set_option maxRecDepth 100000 in
/-- C18 (counterexample): `Load` of the stream of a 24-element array succeeds with shape
`[24]` and count 24; `Reshape` with the positive-product shape `[8, 536870915]` (product
4294967320, which `flat_size` computes as 24) replaces the shape, so after a successful
`Load` and one `Reshape` call the product of the shape is 4294967320 while the stored count
is 24 and `GetFlatSize` is 24. -/
theorem count_invariant_wraps :
    Npy.Load Npy.new Uninit.zero int24Stream = ⟨none, int24, []⟩
    ∧ 0 < ([8, 536870915] : List Int).prod
    ∧ reshapeAll int24 [[8, 536870915]] = some { int24 with mShape := [8, 536870915] }
    ∧ Npy.mShape { int24 with mShape := [8, 536870915] } = [8, 536870915]
    ∧ ([8, 536870915] : List Int).prod = 4294967320
    ∧ Npy.mFlatLength { int24 with mShape := [8, 536870915] } = 24
    ∧ Npy.GetFlatSize { int24 with mShape := [8, 536870915] } = 24
    ∧ Npy.mDwidth { int24 with mShape := [8, 536870915] } = 1 := by
  decide

/-! ### Restricted round trip -/

theorem Load_Save_core (x target : Npy) (u : Uninit)
    (hdt : x.mDtype ≠ .NONE) (hw1 : 1 ≤ x.mDwidth) (hw9 : x.mDwidth ≤ 9)
    (hne : x.mShape ≠ []) (hext : ∀ i ∈ x.mShape, 0 ≤ i ∧ i ≤ 2147483647)
    (hcount : (x.mFlatLength : Int) = x.mShape.prod)
    (hbuf : (x.mData.length : Int) = x.mDwidth * x.mShape.prod)
    (hfit : x.mData.length < 2147483648)
    (hhdr : ∀ text, x.headerText = some text → (padHeader text).length < 65536)
    (htarget : target.mShape = []) :
    ∃ text, x.headerText = some text ∧ x.Save = some (saveBytes text x.mData)
      ∧ target.Load u (saveBytes text x.mData) = ⟨none, x, []⟩ := by
  have hp0 : 0 ≤ x.mShape.prod := prod_nonneg_of_forall _ (fun i hi => (hext i hi).1)
  have hple : x.mShape.prod ≤ x.mDwidth * x.mShape.prod := by nlinarith
  have hflat : x.mFlatLength = flat_size x.mShape := by
    have := flat_size_eq_prod x.mShape hp0 (by omega)
    omega
  have hsize : x.payloadSize = (x.mData.length : Int) :=
    payloadSize_eq x x.mData.length (by rw [hbuf, hcount]) hfit
  obtain ⟨text, htext, hload⟩ :=
    Load_saveBytes_header x target u x.mData hdt (by omega) hw9 hne hext hhdr
  have hsave : x.Save = some (saveBytes text x.mData) := by
    unfold Npy.Save
    rw [htext, payload_of_exact x hsize]
  have hps : (target.parsedFrom x).payloadSize = (x.mData.length : Int) := by
    rw [parsedFrom_fresh x target htarget hflat]
    exact hsize
  refine ⟨text, htext, hsave, ?_⟩
  rw [hload, hps, if_neg (by omega), Int.toNat_ofNat, readInto_of_le _ _ _ (le_refl _),
    List.take_length, List.drop_length, parsedFrom_fresh x target htarget hflat]

theorem readShape_mData (self : Npy) (header : List Char) :
    (self.readShape header).1.mData = self.mData := by
  unfold Npy.readShape
  cases regex_search reShape header with
  | none => rfl
  | some m =>
    simp only
    cases pushShape self.mShape (regex_iter reDigits ((m.sub 1).length + 1) (m.sub 1)) with
    | mk shape b =>
      cases b with
      | false => rfl
      | true =>
        simp only
        by_cases hne : shape ≠ []
        · rw [if_pos hne]
        · rw [if_neg hne]

theorem parseHeader_mData (self : Npy) (header : List Char) :
    (self.parseHeader header).1.mData = self.mData := by
  obtain ⟨-, -, d3, -, -⟩ := readDescr_frame self header
  obtain ⟨-, -, f3, -, -⟩ := readFortranOrder_frame (self.readDescr header).1 header
  rw [parseHeader_eq]
  by_cases hd : (self.readDescr header).2 = false
  · rw [if_pos hd]
    exact d3
  · rw [if_neg hd]
    by_cases hf : ((self.readDescr header).1.readFortranOrder header).2 = false
    · rw [if_pos hf]
      exact f3.trans d3
    · rw [if_neg hf]
      exact (readShape_mData _ header).trans (f3.trans d3)

/-- Every buffer the class holds is shorter than 2^31 bytes: `Load` either leaves the buffer
as it was or replaces it by the `new char[size]` of a non-negative `int size`. -/
theorem Load_buffer_fits (self : Npy) (u : Uninit) (inp : List Char)
    (h0 : self.mData.length < 2147483648) :
    (self.Load u inp).npy.mData.length < 2147483648 := by
  have hkeep : ∀ s (b : Option Bool), self.parseHeader (getline (inp.drop 10)) = (s, b) →
      s.mData.length < 2147483648 := by
    intro s b hp
    have := parseHeader_mData self (getline (inp.drop 10))
    rw [hp] at this
    rw [this]
    exact h0
  rcases Load_outcomes self u inp with h1 | h1 | ⟨s, hp, h1⟩ | ⟨s, hp, h1⟩ | ⟨s, hp, h1⟩
    | ⟨s, hp, h1⟩
  · rw [h1]; exact h0
  · rw [h1]; exact h0
  · rw [h1]; exact hkeep s _ hp
  · rw [h1]; exact hkeep s _ hp
  · rw [h1]; exact hkeep s _ hp
  · rw [h1]
    show (readInto _ _ _).length < 2147483648
    rw [readInto_length]
    have := (wrapInt32_range (s.GetFlatSize : Int)).2
    unfold Npy.payloadSize
    omega

set_option maxRecDepth 100000 in
/-- The bound `hfit` of the round trip is a bound of the type `int`, not of the arrays: in
the model, which lets `mData` be any byte string, a 2^30-element array of 2-byte integers
with a buffer of 2 * 2^30 bytes makes `int size` negative, so `Save` writes no payload byte
and `Load` of the stream is left by the exception of `new char[size]`. By
`Load_buffer_fits` no `Load` produces such a buffer. -/
theorem Load_Save_huge_fails :
    hugeInt2.mDtype = .INTEGER ∧ hugeInt2.mDwidth = 2 ∧ hugeInt2.mShape = [1073741824]
    ∧ (hugeInt2.mFlatLength : Int) = hugeInt2.mShape.prod
    ∧ hugeInt2.mData.length = 2 * 1073741824
    ∧ hugeInt2.headerText
      = some "\x7b'descr': '<i2', 'fortran_order': False, 'shape': (1073741824,), \x7d".toList
    ∧ (padHeader
        "\x7b'descr': '<i2', 'fortran_order': False, 'shape': (1073741824,), \x7d".toList).length
      = 118
    ∧ hugeInt2.Save
      = some (saveBytes
          "\x7b'descr': '<i2', 'fortran_order': False, 'shape': (1073741824,), \x7d".toList [])
    ∧ (Npy.Load Npy.new Uninit.zero (saveBytes
          "\x7b'descr': '<i2', 'fortran_order': False, 'shape': (1073741824,), \x7d".toList
          [])).error = some .badAlloc := by
  refine ⟨rfl, rfl, rfl, by decide, List.length_replicate _ _, by decide, by decide,
    by decide, by decide⟩

end shoz
